import Mathlib

/-!
# Verification of the sitemap product extractor

Shallow embedding of `sitemap_extractor.py`: the sitemap parsing and
product-code extraction chain, the product-page information extractor, the
description composer, the translation adapter's outcome classification, the
code filter / force-mode stub synthesis, the product-count cap, the CSV code
reader, and the orchestrator's per-product loop.  External collaborators
(HTTP, BeautifulSoup, the OpenAI client, the csv module) are modelled at
their interfaces: the values they hand back to the script are inputs of the
embedded functions, and everything the script itself computes from those
values is embedded faithfully.

Strings are modelled as `String` / `List Char`; Python `dict` values that the
script builds by repeated insertion are modelled as association lists with
Python's overwrite-keeps-position semantics.
-/

set_option maxRecDepth 8000

/-! ## Python string primitives used by the script -/

/-- Python whitespace characters recognised by `str.strip()` (ASCII range). -/
def pyWs (c : Char) : Bool :=
  c = ' ' || c = '\t' || c = '\n' || c = '\r' || c = '\x0b' || c = '\x0c'

/-- Python `str.strip()`: drop whitespace from both ends. -/
def pyStrip (l : List Char) : List Char :=
  ((l.dropWhile pyWs).reverse.dropWhile pyWs).reverse

/-- Python `str.rstrip(ch)` for a single character. -/
def pyRstripChar (ch : Char) (l : List Char) : List Char :=
  (l.reverse.dropWhile (· = ch)).reverse

/-- Python `str.lower()` (ASCII model). -/
def pyLower (l : List Char) : List Char :=
  l.map Char.toLower

/-- Python `needle in hay` substring test. -/
def containsSub (needle : List Char) : List Char → Bool
  | [] => needle.isEmpty
  | c :: t => needle.isPrefixOf (c :: t) || containsSub needle t

/-- Python `s.startswith(p)`. -/
def pyStartsWith (s p : List Char) : Bool :=
  p.isPrefixOf s

/-- Fuelled splitting scan: each step consumes at least one character, so
fuel equal to the list length always suffices (the fuel-exhausted arm is
unreachable from `pySplit`). -/
def pySplitF (sep : List Char) : Nat → List Char → List (List Char)
  | _, [] => [[]]
  | 0, l => [l]
  | fuel + 1, c :: t =>
    if sep ≠ [] ∧ sep.isPrefixOf (c :: t) then
      [] :: pySplitF sep fuel (t.drop (sep.length - 1))
    else
      match pySplitF sep fuel t with
      | [] => [[c]]
      | p :: ps => (c :: p) :: ps

/-- Python `s.split(sep)` for a non-empty separator (an empty separator is
never used by the script; it behaves as no separator here). -/
def pySplit (sep : List Char) (l : List Char) : List (List Char) :=
  pySplitF sep l.length l

/-- Python `s.split(' ', 1)`: the part before the first space, and the rest
after it when a space occurs. -/
def pySplitSp1 : List Char → List Char × Option (List Char)
  | [] => ([], none)
  | c :: t =>
    if c = ' ' then ([], some t)
    else
      let r := pySplitSp1 t
      (c :: r.1, r.2)

/-- Prefix of `s` before the first occurrence of `sep` (Python
`s.split(sep)[0]`). -/
def pySplitHead (sep s : List Char) : List Char :=
  match pySplit sep s with
  | [] => s
  | p :: _ => p

/-- Count of leading newline characters. -/
def leadNl : List Char → Nat
  | [] => 0
  | c :: t => if c = '\n' then leadNl t + 1 else 0

/-- Count of trailing newline characters. -/
def trailNl (l : List Char) : Nat :=
  leadNl l.reverse

/-- Whether `l` contains a run of at least `k` consecutive newlines. -/
def hasRunGe (k : Nat) : List Char → Bool
  | [] => false
  | c :: t => decide (k ≤ leadNl (c :: t)) || hasRunGe k t

/-- List contains no newline character. -/
def nlFree (l : List Char) : Prop :=
  '\n' ∉ l

instance (l : List Char) : Decidable (nlFree l) := by
  unfold nlFree; infer_instance

/-- Python `s.replace("\n\n\n", "\n\n")`: one left-to-right pass, scanning
resumes after each replacement. -/
def pyReplace3 : List Char → List Char
  | [] => []
  | [c] => [c]
  | [c, d] => [c, d]
  | c :: d :: e :: rest =>
    if c = '\n' ∧ d = '\n' ∧ e = '\n' then
      '\n' :: '\n' :: pyReplace3 rest
    else
      c :: pyReplace3 (d :: e :: rest)

/-- Association-list insertion with Python `dict` semantics: an existing key
keeps its position and its value is overwritten, a new key is appended. -/
def dictInsert (d : List (String × String)) (k v : String) :
    List (String × String) :=
  if d.any (fun p => p.1 = k) then
    d.map (fun p => if p.1 = k then (k, v) else p)
  else
    d ++ [(k, v)]

/-- First selector in `sels` for which the query yields a value, and that
value (models a `for sel in selectors: ... break` loop). -/
def firstMatch {α : Type} (sels : List String) (q : String → Option α) :
    Option α :=
  match sels with
  | [] => none
  | s :: rest =>
    match q s with
    | some e => some e
    | none => firstMatch rest q

/-! ## Data model -/

/-- One product record as assembled from a sitemap entry
(`{'code', 'name', 'image_url', 'product_url'}`). -/
structure ProductData where
  code : String
  name : String
  image_url : String
  product_url : String
deriving Repr, DecidableEq

/-- Result dictionary of `parse_product_page`. -/
structure PageInfo where
  description : String
  specifications : List (String × String)
  items_in_set : List String
  applications : List String
deriving Repr, DecidableEq

/-- All-empty extraction result (`{"description": "", "specifications": {},
"items_in_set": [], "applications": []}`). -/
def emptyPageInfo : PageInfo :=
  { description := "", specifications := [], items_in_set := [],
    applications := [] }

/-- Terminal record written to the output CSV: the product plus the derived
description fields. -/
structure EnhancedProduct where
  base : ProductData
  english_description : String
  spanish_description : String
  detailed_info : PageInfo
deriving Repr, DecidableEq

/-! ## The parsed-HTML interface (BeautifulSoup collaborator)

`parse_product_page` interrogates the parsed document only through the
queries below, so a document is modelled by the answers to those queries:
`select_one` on the description selectors, `select` on the specification
selectors (a table is its list of rows, a row its list of `td` cell texts),
the first `application/ld+json` script, all `dl` elements (their `dt` and
`dd` texts), `select` on the set-items selectors (a container is the list of
optional name texts of its items), and the generic product-info sections. -/

/-- An element as consumed by the description phase: its
`get_text(strip=True)` and raw `get_text()` values. -/
structure Elem where
  textStrip : String
  textRaw : String
deriving Repr, DecidableEq

/-- One name/value member of a JSON-LD `additionalProperty` entry; a field is
`none` when the corresponding key is absent from the JSON object. -/
structure JsonProp where
  nameVal : Option String
  valueVal : Option String
deriving Repr, DecidableEq

/-- Outcome of `json.loads` on the JSON-LD script (with `AttributeError` on a
string-less script folded into `malformed`). -/
inductive JsonLd where
  | malformed
  | nondict
  | dict (description : Option String) (additionalProperty : Option (List JsonProp))
deriving Repr, DecidableEq

/-- Parsed-document interface. -/
structure Soup where
  descSel : String → Option Elem
  specSel : String → List (List (List String))
  jsonLd : Option JsonLd
  dls : List (List String × List String)
  setSel : String → List (List (Option String))
  prodInfoSections : List String

/-! ## parse_product_page -/

def description_selectors : List String :=
  [".product-single__description", ".product__description",
   ".product-description", ".description", "[itemprop=description]",
   ".product-detail"]

def spec_selectors : List String :=
  [".product-single__specs-table", ".specs-table", ".product-specs",
   ".specifications", "table.specs", "[itemprop=additionalProperty]"]

def set_items_selectors : List String :=
  [".product-single__set-items", ".set-items", ".product-set",
   ".package-contents", ".included-items"]

/-- Intent keywords scanned for in the description text. -/
def descAppKeywords : List String :=
  ["ideal for", "perfect for", "used for", "designed for", "suitable for",
   "applications"]

/-- Application-related keywords scanned for in specification keys. -/
def specAppKeywords : List String :=
  ["application", "use", "usage", "suitable"]

/-- Description phase: first matching description selector wins; keyword hits
in the raw text also append it to applications. -/
def descPhase (soup : Soup) (r : PageInfo) : PageInfo :=
  match firstMatch description_selectors soup.descSel with
  | none => r
  | some e =>
    let r := { r with description := e.textStrip }
    if descAppKeywords.any (fun kw => containsSub kw.data (pyLower e.textRaw.data)) then
      { r with applications := r.applications ++ [e.textRaw] }
    else r

/-- Processing of one specification table row: two or more cells give a
key/value pair; an application-related key also records an application. -/
def specRowStep (r : PageInfo) (row : List String) : PageInfo :=
  match row with
  | k :: v :: _ =>
    let r := { r with specifications := dictInsert r.specifications k v }
    if specAppKeywords.any (fun kw => containsSub kw.data (pyLower k.data)) then
      { r with applications := r.applications ++ [k ++ ": " ++ v] }
    else r
  | _ => r

/-- Specification-selector phase: the first selector returning at least one
table wins, and every row of every returned table is processed. -/
def specPhase (soup : Soup) (r : PageInfo) : PageInfo :=
  match firstMatch spec_selectors
      (fun s => match soup.specSel s with
        | [] => none
        | ts => some ts) with
  | none => r
  | some tables => tables.foldl (fun r t => t.foldl specRowStep r) r

/-- JSON-LD phase: runs whenever a JSON-LD script is present; a malformed or
non-dict payload is skipped; `description` is read only when the description
is still empty; `additionalProperty` name/value pairs are always inserted. -/
def jsonLdPhase (soup : Soup) (r : PageInfo) : PageInfo :=
  match soup.jsonLd with
  | none => r
  | some .malformed => r
  | some .nondict => r
  | some (.dict desc props) =>
    let r :=
      match desc with
      | some d => if r.description = "" then { r with description := d } else r
      | none => r
    match props with
    | none => r
    | some ps =>
      ps.foldl (fun r p =>
        match p.nameVal, p.valueVal with
        | some n, some v => { r with specifications := dictInsert r.specifications n v }
        | _, _ => r) r

/-- Definition-list fallback: only when no specification was found, pair each
`dt` with the `dd` at the same index. -/
def dlPhase (soup : Soup) (r : PageInfo) : PageInfo :=
  if r.specifications = [] then
    soup.dls.foldl (fun r dl =>
      (dl.1.zip dl.2).foldl (fun r kv =>
        { r with specifications := dictInsert r.specifications kv.1 kv.2 }) r) r
  else r

/-- Set-items phase: first matching selector wins and only its first
container is read; each item with a name sub-element contributes its text. -/
def setPhase (soup : Soup) (r : PageInfo) : PageInfo :=
  match firstMatch set_items_selectors
      (fun s => match soup.setSel s with
        | [] => none
        | cs => some cs) with
  | none => r
  | some containers =>
    match containers with
    | [] => r
    | c :: _ =>
      { r with items_in_set := r.items_in_set ++ c.filterMap id }

/-- Generalized fallback: when description and specifications are both still
empty, the first non-empty product-info section becomes the description. -/
def generalPhase (soup : Soup) (r : PageInfo) : PageInfo :=
  if r.description = "" ∧ r.specifications = [] then
    match soup.prodInfoSections.find? (fun t => t ≠ "") with
    | some t => { r with description := t }
    | none => r
  else r

/-- Embedding of `parse_product_page`: absent (or empty, hence falsy) HTML
yields the all-empty result, otherwise the phases run in source order. -/
def parse_product_page (html : Option Soup) : PageInfo :=
  match html with
  | none => emptyPageInfo
  | some soup =>
    generalPhase soup (setPhase soup (dlPhase soup (jsonLdPhase soup
      (specPhase soup (descPhase soup emptyPageInfo)))))

/-! ## create_product_description -/

/-- Generic introduction used when no description was scraped. -/
def genericIntro : String :=
  "Crafted with Wiha's renowned German engineering, this tool offers exceptional durability, precision, and ergonomic design to ensure comfort during extended use."

/-- Generic feature bullets used when no specification survives the key
exclusion list. -/
def genericFeatures : List (List Char) :=
  ["- Premium German engineering and construction".data,
   "- Ergonomic design for comfortable use".data,
   "- Made from high-quality materials for durability".data,
   "- Part of Wiha's professional-grade tool lineup".data]

/-- Specification keys excluded from the Features block. -/
def excludedSpecKeys : List (List Char) :=
  ["product code".data, "sku".data, "upc".data]

/-- Title line `"Wiha {code} - {name}"`. -/
def product_title (pd : ProductData) : List Char :=
  "Wiha ".data ++ pd.code.data ++ " - ".data ++ pd.name.data

/-- Introduction paragraph: fixed opener plus the scraped description when
non-empty, else the generic sentence. -/
def introPara (pd : ProductData) (di : PageInfo) : List Char :=
  "The Wiha ".data ++ pd.code.data ++ " ".data ++ pd.name.data ++
    " is a premium quality tool designed for professional use and demanding applications. ".data ++
    (if di.description = "" then genericIntro.data else di.description.data)

/-- Feature lines: header plus one bullet per specification whose lowered key
is not excluded. -/
def featureLines (di : PageInfo) : List (List Char) :=
  "Features:".data ::
    di.specifications.filterMap (fun kv =>
      if pyLower kv.1.data ∈ excludedSpecKeys then none
      else some ("- ".data ++ kv.1.data ++ ": ".data ++ kv.2.data))

/-- Features block, falling back to the generic bullets when only the header
remains. -/
def featuresBlock (di : PageInfo) : List (List Char) :=
  let f := featureLines di
  if f.length ≤ 1 then f ++ genericFeatures else f

/-- Applications section (empty string when no application was found). -/
def appsSection (di : PageInfo) : List Char :=
  if di.applications.isEmpty then []
  else
    List.intercalate ['\n']
      ("\nApplications:".data :: di.applications.map (fun a => "- ".data ++ a.data))

/-- Set-items section (empty string when the product is not a set). -/
def setSection (di : PageInfo) : List Char :=
  if di.items_in_set.isEmpty then []
  else
    List.intercalate ['\n']
      ("\nThis set includes:".data :: di.items_in_set.map (fun it => "- ".data ++ it.data))

/-- Fixed Additional Information section. -/
def additionalInfoSection (pd : ProductData) : List Char :=
  List.intercalate ['\n']
    ["\nAdditional Information:".data, "- Brand: Wiha".data,
     "- Model: ".data ++ pd.code.data, "- Made in Germany".data,
     "- Professional-grade quality".data]

/-- Closing call-to-action sentence. -/
def closingLine (pd : ProductData) : List Char :=
  "\nWith Wiha's commitment to excellence and innovation, the ".data ++
    pd.name.data ++
    " delivers the reliability and performance that professionals demand. ".data ++
    "Elevate your work with tools engineered to meet the highest standards.".data

/-- Section list joined by `"\n".join(sections)`. -/
def descSections (pd : ProductData) (di : PageInfo) : List (List Char) :=
  [product_title pd, [], introPara pd di, [],
   List.intercalate ['\n'] (featuresBlock di),
   appsSection di, setSection di, additionalInfoSection pd, [], closingLine pd]

/-- Embedding of `create_product_description`:
`"\n".join(sections).replace("\n\n\n", "\n\n")`. -/
def create_product_description (pd : ProductData) (di : PageInfo) : String :=
  String.mk (pyReplace3 (List.intercalate ['\n'] (descSections pd di)))

/-! ## fetch_product_page -/

/-- What one HTTP attempt for a product page comes back with: a body, a 404,
or one of the retried error classes. -/
inductive AttemptResult where
  | ok (html : String)
  | notFound404
  | timeout
  | connError
  | reqError (msg : String)
deriving Repr, DecidableEq

def max_retries : Nat := 3

/-- Attempt loop of `fetch_product_page`, driven by the outcome of each
numbered attempt; returns the fetched body (if any) and the number of the
last attempt made. -/
def fetchFrom (env : Nat → AttemptResult) : Nat → Nat → Option String × Nat
  | a, 0 => (none, a)
  | a, fuel + 1 =>
    match env a with
    | .ok h => (some h, a)
    | .notFound404 => (none, a)
    | _ => if a < max_retries then fetchFrom env (a + 1) fuel else (none, a)

/-- Embedding of `fetch_product_page` over the per-attempt outcomes. -/
def fetch_product_page (env : Nat → AttemptResult) : Option String × Nat :=
  fetchFrom env 1 max_retries


/-! ## translate_to_spanish -/

/-- Length of the leading run of `#` characters. -/
def hashRun : List Char → Nat
  | '#' :: t => hashRun t + 1
  | _ => 0

/-- Helper bound: dropping a matching head never lengthens a list. -/
theorem length_dropWhile_le (p : Char → Bool) (l : List Char) :
    (l.dropWhile p).length ≤ l.length :=
  (List.dropWhile_sublist (l := l) (p := p)).length_le

/-- Substitution `re.sub(r'#{1,6}\s+', '', s)`: a run of one to six hashes
followed by whitespace is removed together with all that whitespace. -/
def subHeaders (l : List Char) : List Char :=
  match l with
  | [] => []
  | c :: t =>
    if hc : c = '#' then
      let r := hashRun (c :: t)
      let rest := (c :: t).drop r
      if decide (r ≤ 6) && (match rest with
          | w :: _ => pyWs w
          | [] => false) then
        subHeaders (rest.dropWhile pyWs)
      else c :: subHeaders t
    else c :: subHeaders t
termination_by l.length
decreasing_by
  · have h1 := length_dropWhile_le pyWs ((c :: t).drop (hashRun (c :: t)))
    have h2 := List.length_drop (hashRun (c :: t)) (c :: t)
    have h3 : 1 ≤ hashRun (c :: t) := by subst hc; simp [hashRun]
    simp only [List.length_cons] at *
    omega
  · simp only [List.length_cons]; omega
  · simp only [List.length_cons]; omega

/-- Scan for the earliest two-character close marker `m m` after at least one
non-newline inner character (lazy `(.+?)` semantics); yields the inner text
and the remainder after the close. -/
def scanClose2 (m : Char) (l : List Char) : Option (List Char × List Char) :=
  match l with
  | [] => none
  | c :: t =>
    if c = '\n' then none
    else if [m, m].isPrefixOf t then some ([c], t.drop 2)
    else
      match scanClose2 m t with
      | some (i, r) => some (c :: i, r)
      | none => none

theorem scanClose2_shrink (m : Char) :
    ∀ l i r, scanClose2 m l = some (i, r) → r.length < l.length := by
  intro l
  induction l with
  | nil => intro i r h; simp [scanClose2] at h
  | cons c t ih =>
    intro i r h
    simp only [scanClose2] at h
    split at h
    · simp at h
    · split at h
      · cases h
        have h2 := List.length_drop 2 t
        simp only [List.length_cons]
        omega
      · split at h
        · rename_i i2 r2 heq
          cases h
          have := ih _ _ heq
          simp only [List.length_cons]
          omega
        · simp at h

/-- Substitution `re.sub(r'\m\m(.+?)\m\m', r'\1', s)` for a doubled marker
(`**` and `__`). -/
def subPair2 (m : Char) (l : List Char) : List Char :=
  match l with
  | [] => []
  | [c] => [c]
  | a :: b :: rest =>
    if a = m ∧ b = m then
      match hs : scanClose2 m rest with
      | some (inner, r) => inner ++ subPair2 m r
      | none => a :: subPair2 m (b :: rest)
    else a :: subPair2 m (b :: rest)
termination_by l.length
decreasing_by
  · have := scanClose2_shrink m _ _ _ hs
    simp only [List.length_cons] at *
    omega
  · simp only [List.length_cons]; omega
  · simp only [List.length_cons]; omega

/-- Scan for the earliest one-character close marker `m` after at least one
non-newline inner character. -/
def scanClose1 (m : Char) (l : List Char) : Option (List Char × List Char) :=
  match l with
  | [] => none
  | c :: t =>
    if c = '\n' then none
    else if [m].isPrefixOf t then some ([c], t.drop 1)
    else
      match scanClose1 m t with
      | some (i, r) => some (c :: i, r)
      | none => none

theorem scanClose1_shrink (m : Char) :
    ∀ l i r, scanClose1 m l = some (i, r) → r.length < l.length := by
  intro l
  induction l with
  | nil => intro i r h; simp [scanClose1] at h
  | cons c t ih =>
    intro i r h
    simp only [scanClose1] at h
    split at h
    · simp at h
    · split at h
      · cases h
        have h2 := List.length_drop 1 t
        simp only [List.length_cons]
        omega
      · split at h
        · rename_i i2 r2 heq
          cases h
          have := ih _ _ heq
          simp only [List.length_cons]
          omega
        · simp at h

/-- Substitution `re.sub(r'\m(.+?)\m', r'\1', s)` for a single marker
(`*` and `_`). -/
def subPair1 (m : Char) (l : List Char) : List Char :=
  match l with
  | [] => []
  | a :: rest =>
    if a = m then
      match hs : scanClose1 m rest with
      | some (inner, r) => inner ++ subPair1 m r
      | none => a :: subPair1 m rest
    else a :: subPair1 m rest
termination_by l.length
decreasing_by
  · have := scanClose1_shrink m _ _ _ hs
    simp only [List.length_cons] at *
    omega
  · simp only [List.length_cons]; omega
  · simp only [List.length_cons]; omega

/-- Scan for the earliest `](` after at least one non-newline label
character. -/
def scanLabel (l : List Char) : Option (List Char × List Char) :=
  match l with
  | [] => none
  | c :: t =>
    if c = '\n' then none
    else if [']', '('].isPrefixOf t then some ([c], t.drop 2)
    else
      match scanLabel t with
      | some (i, r) => some (c :: i, r)
      | none => none

theorem scanLabel_shrink :
    ∀ l i r, scanLabel l = some (i, r) → r.length < l.length := by
  intro l
  induction l with
  | nil => intro i r h; simp [scanLabel] at h
  | cons c t ih =>
    intro i r h
    simp only [scanLabel] at h
    split at h
    · simp at h
    · split at h
      · cases h
        have h2 := List.length_drop 2 t
        simp only [List.length_cons]
        omega
      · split at h
        · rename_i i2 r2 heq
          cases h
          have := ih _ _ heq
          simp only [List.length_cons]
          omega
        · simp at h

/-- Scan for the earliest `)` after at least one non-newline URL character;
yields the remainder after the close. -/
def scanUrl : List Char → Option (List Char)
  | [] => none
  | c :: t =>
    if c = '\n' then none
    else if [')'].isPrefixOf t then some (t.drop 1)
    else scanUrl t

theorem scanUrl_shrink : ∀ l r, scanUrl l = some r → r.length < l.length := by
  intro l
  induction l with
  | nil => intro r h; simp [scanUrl] at h
  | cons c t ih =>
    intro r h
    simp only [scanUrl] at h
    split at h
    · simp at h
    · split at h
      · cases h
        have h2 := List.length_drop 1 t
        simp only [List.length_cons]
        omega
      · have := ih _ h
        simp only [List.length_cons]
        omega

/-- Substitution `re.sub(r'\[(.+?)\]\(.+?\)', r'\1', s)`: a markdown link is
replaced by its label. -/
def subLink (l : List Char) : List Char :=
  match l with
  | [] => []
  | a :: rest =>
    if a = '[' then
      match hs : scanLabel rest with
      | some (label, r1) =>
        match hu : scanUrl r1 with
        | some r2 => label ++ subLink r2
        | none => a :: subLink rest
      | none => a :: subLink rest
    else a :: subLink rest
termination_by l.length
decreasing_by
  · have h1 := scanLabel_shrink _ _ _ hs
    have h2 := scanUrl_shrink _ _ hu
    simp only [List.length_cons] at *
    omega
  · simp only [List.length_cons]; omega
  · simp only [List.length_cons]; omega
  · simp only [List.length_cons]; omega

/-- The six markup-stripping substitutions, in source order: headers, bold,
italic, underline-bold, underline-italic, links. -/
def stripMarkdown (l : List Char) : List Char :=
  subLink (subPair1 '_' (subPair2 '_' (subPair1 '*' (subPair2 '*' (subHeaders l)))))

/-- Non-plier promotional boilerplate. -/
def fabricationText : String :=
  "\n-- FABRICADO EN ALEMANIA (no es producto chino) --\n\nSomos PROFITOOLS, el único representante oficial de Wiha en Argentina.\n\n"

/-- Plier promotional boilerplate. -/
def profitoolsText : String :=
  "\nSomos PROFITOOLS, el único representante oficial de Wiha en Argentina.\n\n"

/-- Split at the first newline (Python `text.find('\n')` plus slicing): the
first line (without the newline) and everything after the newline. -/
def splitFirstNl : List Char → Option (List Char × List Char)
  | [] => none
  | c :: t =>
    if c = '\n' then some ([], t)
    else
      match splitFirstNl t with
      | some (a, b) => some (c :: a, b)
      | none => none

/-- Insert boilerplate right after the first line, or append it when the text
has no newline. -/
def insertAfterFirstLine (boiler text : List Char) : List Char :=
  match splitFirstNl text with
  | some (line, rest) => line ++ ['\n'] ++ boiler ++ rest
  | none => text ++ boiler

/-- Plier-related keywords checked against the lowered product name. -/
def plier_terms : List String := ["plier", "pliers", "alicate", "pinza"]

def is_plier (name : String) : Bool :=
  plier_terms.any (fun term => containsSub term.data (pyLower name.data))

/-- Post-processing of a successful service response: strip of the response
content, markup removal, then boilerplate injection conditioned on the
product category. -/
def postprocess_translation (plier : Bool) (content : String) : String :=
  let plain := stripMarkdown (pyStrip content.data)
  if plier then String.mk (insertAfterFirstLine profitoolsText.data plain)
  else String.mk (insertAfterFirstLine fabricationText.data plain)

/-- Outcome of the single retry performed after a rate-limit error. -/
inductive RetryResult where
  | ok (content : String)
  | fail (msg : String)
deriving Repr, DecidableEq

/-- Outcome of the text-generation request: a response body, a raised
`OpenAIError` (whose message decides the rate-limit retry, with the retry's
own outcome), or any other exception inside the adapter. -/
inductive ApiResult where
  | ok (content : String)
  | openaiErr (msg : String) (retry : RetryResult)
  | exc (msg : String)
deriving Repr, DecidableEq

/-- Python falsiness of the configured credential (`if not OPENAI_API_KEY`). -/
def keyMissing : Option String → Bool
  | none => true
  | some s => s.isEmpty

/-- Embedding of `translate_to_spanish` over the service-interaction outcome.
`text` and `detailed_info` only feed the outbound prompt, which lives on the
collaborator side of the interface. -/
def translate_to_spanish (apiKey : Option String) (api : ApiResult)
    (text : String) (product_data : ProductData) (detailed_info : PageInfo) :
    String :=
  if keyMissing apiKey then "API key not provided. Translation skipped."
  else
    let plier := is_plier product_data.name
    match api with
    | .ok content => postprocess_translation plier content
    | .openaiErr msg retry =>
      if containsSub "rate limit".data (pyLower msg.data) then
        match retry with
        | .ok content => postprocess_translation plier content
        | .fail m2 => "NOT FOUND - OpenAI API Error after retry: " ++ m2
      else "NOT FOUND - OpenAI API Error: " ++ msg
    | .exc msg => "NOT FOUND - Error in translation process: " ++ msg

/-! ## parse_product_sitemap -/

/-- One `<url>` entry of a product sitemap: its `<loc>` text, image location,
image caption (when present with truthy text), and the concatenation of all
its text nodes. -/
structure UrlEntry where
  loc : Option String
  imageLoc : Option String
  imageCaption : Option String
  textContent : String
deriving Repr, DecidableEq

/-- Python truthiness of an optional string variable. -/
def truthyOpt : Option String → Bool
  | none => false
  | some s => !s.isEmpty

/-- Shared body of extraction methods 1 and 2: split on `"Wiha "`, then split
the stripped second part on the first space; the first token becomes the
code, the remainder (when present) the name. -/
def wihaSplit (t : List Char) (st : Option String × Option String) :
    Option String × Option String :=
  match pySplit "Wiha ".data t with
  | _ :: seg :: _ =>
    let cr := pySplitSp1 (pyStrip seg)
    let code := some (String.mk (pyStrip cr.1))
    let name :=
      match cr.2 with
      | some rest => some (String.mk (pyStrip rest))
      | none => st.2
    (code, name)
  | _ => st

/-- Method 1: the caption pattern `"Wiha CODE NAME"`. -/
def method1 (imageCaption : Option String) : Option String × Option String :=
  match imageCaption with
  | some cap =>
    if truthyOpt (some cap) && containsSub "Wiha ".data cap.data then
      wihaSplit cap.data (none, none)
    else (none, none)
  | none => (none, none)

/-- Method 2: the same split applied to the entry's full text content. -/
def method2 (st : Option String × Option String) (textContent : String) :
    Option String × Option String :=
  if !truthyOpt st.1 && containsSub "Wiha ".data textContent.data then
    wihaSplit textContent.data st
  else st

/-- First capture of `re.findall(r'\d+$', s)`: the trailing digit run. -/
def trailingDigits (l : List Char) : Option (List Char) :=
  let ds := (l.reverse.takeWhile Char.isDigit).reverse
  if ds.isEmpty then none else some ds

/-- First capture of `re.findall(r'-(\d+)(?:-|$)', s)`: the first digit run
preceded by a hyphen and followed by a hyphen or the end of the string. -/
def hyphenDigits : List Char → Option (List Char)
  | [] => none
  | c :: t =>
    if c = '-' then
      let ds := t.takeWhile Char.isDigit
      let rest := t.drop ds.length
      if !ds.isEmpty && (rest = [] || rest.head? = some '-') then some ds
      else hyphenDigits t
    else hyphenDigits t

/-- Method 3: derive the code from the URL's last path segment. -/
def method3 (st : Option String × Option String) (product_url : String) :
    Option String × Option String :=
  if !truthyOpt st.1 then
    match (pySplit "/".data (pyRstripChar '/' product_url.data)).getLast? with
    | some last =>
      match trailingDigits last with
      | some ds => (some (String.mk ds), st.2)
      | none =>
        match hyphenDigits last with
        | some ds => (some (String.mk ds), st.2)
        | none => st
    | none => st
  else st

/-- First capture of `re.findall(r'[-(](\d+)[)-]', s)`: the first digit run
immediately preceded by a hyphen or opening parenthesis and immediately
followed by a closing parenthesis or hyphen. -/
def firstEnclosedDigits : List Char → Option (List Char)
  | [] => none
  | c :: t =>
    if c = '-' || c = '(' then
      let ds := t.takeWhile Char.isDigit
      let rest := t.drop ds.length
      if !ds.isEmpty && (rest.head? = some ')' || rest.head? = some '-') then
        some ds
      else firstEnclosedDigits t
    else firstEnclosedDigits t

/-- Method 4: derive the code from digit runs delimited inside the
already-extracted name. -/
def method4 (st : Option String × Option String) :
    Option String × Option String :=
  if !truthyOpt st.1 && truthyOpt st.2 then
    match st.2 with
    | some name =>
      match firstEnclosedDigits name.data with
      | some ds => (some (String.mk ds), st.2)
      | none => st
    | none => st
  else st

/-- Full per-entry fallback chain, methods 1 to 4 in source order. -/
def extract_code_name (e : UrlEntry) (loc : String) :
    Option String × Option String :=
  method4 (method3 (method2 (method1 e.imageCaption) e.textContent) loc)

/-- Embedding of `parse_product_sitemap`: every `<url>` entry whose location
contains `/products/` is run through the extraction chain and emitted exactly
when a truthy code was derived. -/
def parse_product_sitemap (entries : List UrlEntry) : List ProductData :=
  entries.filterMap (fun e =>
    match e.loc with
    | some loc =>
      if containsSub "/products/".data loc.data then
        let st := extract_code_name e loc
        match st.1 with
        | some code =>
          if code ≠ "" then
            some { code := code,
                   name := match st.2 with
                     | some n => if n ≠ "" then n else "Unknown Product Name"
                     | none => "Unknown Product Name",
                   image_url := e.imageLoc.getD "",
                   product_url := loc }
          else none
        | none => none
      else none
    | none => none)

/-! ## Code filtering, force mode, product cap, CSV reading -/

/-- Records kept by the allow-list filter (`main`, filtering loop). -/
def filtered_data (all : List ProductData) (codes : List String) :
    List ProductData :=
  all.filter (fun p => codes.contains p.code)

/-- Set of allow-list codes actually matched (`found_codes_set`). -/
def found_codes_set (all : List ProductData) (codes : List String) :
    Finset String :=
  ((filtered_data all codes).map (fun p => p.code)).toFinset

/-- Set of requested codes (`input_codes_set`). -/
def input_codes_set (codes : List String) : Finset String :=
  codes.toFinset

/-- Requested-but-absent codes (`missing_codes = input_codes_set -
found_codes_set`). -/
def missing_codes (all : List ProductData) (codes : List String) :
    Finset String :=
  input_codes_set codes \ found_codes_set all codes

/-- Iteration order used for the Python set `missing_codes` (modelled as the
deduplicated input order; no claim depends on the order itself). -/
def missing_codes_list (all : List ProductData) (codes : List String) :
    List String :=
  codes.dedup.filter
    (fun c => !((filtered_data all codes).map (fun p => p.code)).contains c)

/-- `SITEMAP_URL.split('/sitemap')[0]`. -/
def base_url (sitemapUrl : String) : String :=
  String.mk (pySplitHead "/sitemap".data sitemapUrl.data)

/-- Force-mode stub record for one missing code. -/
def force_stub (sitemapUrl : String) (code : String) : ProductData :=
  { code := code, name := "Product " ++ code, image_url := "",
    product_url := base_url sitemapUrl ++ "/products/" ++ code }

/-- Filtering section of `main`: with an empty allow-list all records pass;
otherwise the matching records are kept, and in force mode a stub is appended
for each missing code. -/
def filter_and_force (sitemapUrl : String) (all : List ProductData)
    (codes : List String) (forceMode : Bool) : List ProductData :=
  if codes.isEmpty then all
  else
    let filtered := filtered_data all codes
    let missing := missing_codes_list all codes
    if forceMode && !missing.isEmpty then
      filtered ++ missing.map (force_stub sitemapUrl)
    else filtered

/-- Product-count cap of `main` (`MAX_PRODUCTS` is an arbitrary integer read
from the environment; truncation happens only when it is positive and the
list is strictly longer). -/
def products_to_process (maxProducts : Int) (l : List ProductData) :
    List ProductData :=
  if 0 < maxProducts ∧ maxProducts < (l.length : Int) then
    l.take maxProducts.toNat
  else l

/-- Embedding of `read_product_codes_csv` over the rows handed back by the
csv reader: empty rows and rows whose raw first field starts with `#` are
skipped; otherwise the stripped first field is collected, in file order. -/
def read_product_codes_csv (rows : List (List String)) : List String :=
  rows.foldl (fun codes row =>
    match row with
    | [] => codes
    | c0 :: _ =>
      if pyStartsWith c0.data "#".data then codes
      else codes ++ [String.mk (pyStrip c0.data)]) []

/-! ## The orchestrator's per-product loop -/

/-- Per-product collaborator outcomes driving one loop iteration: an
unexpected exception (caught by the orchestrator boundary), the per-attempt
HTTP outcomes, the parsed document used when the fetch succeeds, and the
translation-service outcome. -/
structure ProdEnv where
  raiseMsg : Option String
  fetchEnv : Nat → AttemptResult
  soup : Soup
  apiResult : ApiResult

/-- Python falsiness of the fetched body (`if not html_content`). -/
def htmlFalsy : Option String → Bool
  | none => true
  | some s => s.isEmpty

/-- Aggregation state of the loop. -/
structure LoopState where
  enhanced_products : List EnhancedProduct
  processed_count : Nat
  successful_count : Nat
  failed_count : Nat
  error_products : List String

def initLoopState : LoopState :=
  { enhanced_products := [], processed_count := 0, successful_count := 0,
    failed_count := 0, error_products := [] }

/-- One iteration of the per-product loop of `main`: the unexpected-exception
path, the fetch-failure path, and the normal pipeline path. -/
def process_product (apiKey : Option String) (st : LoopState)
    (pe : ProductData × ProdEnv) : LoopState :=
  let product := pe.1
  let env := pe.2
  match env.raiseMsg with
  | some msg =>
    { st with
      enhanced_products := st.enhanced_products ++
        [{ base := product,
           english_description := "ERROR - " ++ msg,
           spanish_description := "NOT FOUND - Error: " ++ msg,
           detailed_info := emptyPageInfo }],
      processed_count := st.processed_count + 1,
      failed_count := st.failed_count + 1,
      error_products := st.error_products ++
        [product.code ++ " - " ++ product.name ++ " (processing error: " ++
          String.mk (msg.data.take 50) ++ "...)"] }
  | none =>
    let html := (fetch_product_page env.fetchEnv).1
    if htmlFalsy html then
      { st with
        enhanced_products := st.enhanced_products ++
          [{ base := product,
             english_description := "NOT FOUND - Could not fetch product page",
             spanish_description := "NOT FOUND - No se pudo obtener la página del producto",
             detailed_info := emptyPageInfo }],
        processed_count := st.processed_count + 1,
        failed_count := st.failed_count + 1,
        error_products := st.error_products ++
          [product.code ++ " - " ++ product.name ++ " (fetch error)"] }
    else
      let detailed_info := parse_product_page (some env.soup)
      let english_description := create_product_description product detailed_info
      let spanish_description :=
        translate_to_spanish apiKey env.apiResult english_description product
          detailed_info
      let translationFailed :=
        pyStartsWith spanish_description.data "NOT FOUND".data
      { st with
        enhanced_products := st.enhanced_products ++
          [{ base := product,
             english_description := english_description,
             spanish_description := spanish_description,
             detailed_info := detailed_info }],
        processed_count := st.processed_count + 1,
        successful_count :=
          if translationFailed then st.successful_count
          else st.successful_count + 1,
        failed_count :=
          if translationFailed then st.failed_count + 1 else st.failed_count,
        error_products :=
          if translationFailed then
            st.error_products ++
              [product.code ++ " - " ++ product.name ++ " (translation error)"]
          else st.error_products }

/-- The whole per-product loop over the records selected for processing. -/
def run_products (apiKey : Option String)
    (items : List (ProductData × ProdEnv)) : LoopState :=
  items.foldl (process_product apiKey) initLoopState

/-! ## Claim proofs -/

section ClaimProofs

/-- Sample parsed document for witnesses: no selector matches anything. -/
def sampleSoup : Soup :=
  { descSel := fun _ => none, specSel := fun _ => [], jsonLd := none,
    dls := [], setSel := fun _ => [], prodInfoSections := [] }

/-- Sample product record for witnesses. -/
def sampleProduct : ProductData :=
  { code := "12345", name := "Slotted Screwdriver", image_url := "",
    product_url := "https://x.com/products/tool-12345" }

/-- Each loop iteration appends exactly one record, increments the processed
count by one, and increments exactly one of the success/failure counters. -/
theorem process_product_step (apiKey : Option String) (st : LoopState)
    (pe : ProductData × ProdEnv) :
    (process_product apiKey st pe).enhanced_products.length
        = st.enhanced_products.length + 1 ∧
    (process_product apiKey st pe).processed_count = st.processed_count + 1 ∧
    (process_product apiKey st pe).successful_count
        + (process_product apiKey st pe).failed_count
        = st.successful_count + st.failed_count + 1 := by
  unfold process_product
  cases h : pe.2.raiseMsg with
  | some msg => exact ⟨by simp [h], by simp [h], by simp only [h]; omega⟩
  | none =>
    simp only [h]
    split
    · exact ⟨by simp, rfl,
        show st.successful_count + (st.failed_count + 1)
            = st.successful_count + st.failed_count + 1 by omega⟩
    · refine ⟨by simp, rfl, ?_⟩
      dsimp only
      split <;> omega

/-- Counter invariant of the whole loop, generalized over the starting
state. -/
theorem run_products_invariant (apiKey : Option String) :
    ∀ (items : List (ProductData × ProdEnv)) (st : LoopState),
    ((items.foldl (process_product apiKey) st).enhanced_products.length
        = st.enhanced_products.length + items.length) ∧
    ((items.foldl (process_product apiKey) st).processed_count
        = st.processed_count + items.length) ∧
    ((items.foldl (process_product apiKey) st).successful_count
        + (items.foldl (process_product apiKey) st).failed_count
        = st.successful_count + st.failed_count + items.length) := by
  intro items
  induction items with
  | nil => intro st; simp
  | cons pe rest ih =>
    intro st
    have h1 := process_product_step apiKey st pe
    have h2 := ih (process_product apiKey st pe)
    simp only [List.foldl_cons, List.length_cons]
    exact ⟨by omega, by omega, by omega⟩

/-- C1: every record entering the per-product loop yields exactly one output
record — the success, fetch-failure and caught-exception paths all append
exactly one `EnhancedProductRecord` — and after the loop the processed count
equals the successful count plus the failed count; the loop is a total fold,
so no record is dropped and no single product aborts the batch. -/
theorem orchestrator_one_record_per_product (apiKey : Option String)
    (items : List (ProductData × ProdEnv)) :
    (run_products apiKey items).enhanced_products.length = items.length ∧
    (run_products apiKey items).processed_count = items.length ∧
    (run_products apiKey items).processed_count
      = (run_products apiKey items).successful_count
        + (run_products apiKey items).failed_count := by
  obtain ⟨h1, h2, h3⟩ := run_products_invariant apiKey items initLoopState
  simp only [run_products, initLoopState, List.length_nil, Nat.zero_add] at h1 h2 h3 ⊢
  omega

/-- C5: a 404 on the first attempt ends the fetch immediately (one attempt,
no retry), and the loop still emits exactly one row for the product, with the
fixed `NOT FOUND` Spanish sentinel, counts it as failed, and the fold
continues with the remaining products. -/
theorem http404_single_row_not_retried (apiKey : Option String)
    (p : ProductData) (env : ProdEnv) (st : LoopState)
    (rest : List (ProductData × ProdEnv))
    (h404 : env.fetchEnv 1 = .notFound404) (hraise : env.raiseMsg = none) :
    fetch_product_page env.fetchEnv = (none, 1) ∧
    (process_product apiKey st (p, env)).enhanced_products
      = st.enhanced_products ++
        [{ base := p,
           english_description := "NOT FOUND - Could not fetch product page",
           spanish_description :=
             "NOT FOUND - No se pudo obtener la página del producto",
           detailed_info := emptyPageInfo }] ∧
    pyStartsWith "NOT FOUND - No se pudo obtener la página del producto".data
        "NOT FOUND".data = true ∧
    (process_product apiKey st (p, env)).failed_count = st.failed_count + 1 ∧
    ((p, env) :: rest).foldl (process_product apiKey) st
      = rest.foldl (process_product apiKey)
          (process_product apiKey st (p, env)) := by
  have hf : fetch_product_page env.fetchEnv = (none, 1) := by
    show fetchFrom env.fetchEnv 1 max_retries = (none, 1)
    rw [show max_retries = 2 + 1 from rfl]
    simp [fetchFrom, h404]
  refine ⟨hf, ?_, by decide, ?_, by simp⟩
  · simp [process_product, hraise, hf, htmlFalsy]
  · simp [process_product, hraise, hf, htmlFalsy]

/-- Fixed per-product environment whose first fetch attempt is a 404. -/
def sampleEnv404 : ProdEnv :=
  { raiseMsg := none, fetchEnv := fun _ => .notFound404, soup := sampleSoup,
    apiResult := .exc "unused" }

theorem http404_single_row_not_retried_witness :
    fetch_product_page sampleEnv404.fetchEnv = (none, 1) ∧
    (process_product none initLoopState (sampleProduct, sampleEnv404)).failed_count = 1 ∧
    (process_product none initLoopState
        (sampleProduct, sampleEnv404)).enhanced_products.length = 1 := by
  have h := http404_single_row_not_retried none sampleProduct sampleEnv404
    initLoopState [] rfl rfl
  refine ⟨h.1, h.2.2.2.1, ?_⟩
  rw [h.2.1]
  rfl

/-- C7: when the configured maximum is positive and the filtered list is
strictly longer, exactly the first `MAX_PRODUCTS` records are processed, in
their existing order (the processed list is a prefix of that length); when
the maximum is zero, every filtered record is processed. -/
theorem max_products_cap (maxProducts : Int) (l : List ProductData) :
    (0 < maxProducts → maxProducts < (l.length : Int) →
      (products_to_process maxProducts l).length = maxProducts.toNat ∧
      products_to_process maxProducts l <+: l) ∧
    (maxProducts = 0 → products_to_process maxProducts l = l) := by
  constructor
  · intro h1 h2
    have hcond : 0 < maxProducts ∧ maxProducts < (l.length : Int) := ⟨h1, h2⟩
    constructor
    · simp only [products_to_process, if_pos hcond, List.length_take]
      omega
    · simp only [products_to_process, if_pos hcond]
      exact List.take_prefix _ _
  · intro h
    simp [products_to_process, h]

theorem max_products_cap_witness :
    (products_to_process 1 [sampleProduct, sampleProduct]).length = 1 ∧
    products_to_process 1 [sampleProduct, sampleProduct]
      <+: [sampleProduct, sampleProduct] ∧
    products_to_process 0 [sampleProduct, sampleProduct]
      = [sampleProduct, sampleProduct] := by
  have h1 := (max_products_cap 1 [sampleProduct, sampleProduct]).1
    (by decide) (by decide)
  have h2 := (max_products_cap 0 [sampleProduct, sampleProduct]).2 rfl
  exact ⟨h1.1, h1.2, h2⟩

/-- Claim-side reading of the CSV row treatment: the stripped first field of
a non-empty row whose raw first field does not start with `#`. -/
def csvFirstFieldSpec (row : List String) : Option String :=
  row.head?.bind (fun c0 =>
    if pyStartsWith c0.data "#".data then none
    else some (String.mk (pyStrip c0.data)))

/-- Accumulator form of the CSV fold. -/
theorem read_codes_csv_foldl (rows : List (List String)) :
    ∀ acc : List String,
    rows.foldl (fun codes row =>
      match row with
      | [] => codes
      | c0 :: _ =>
        if pyStartsWith c0.data "#".data then codes
        else codes ++ [String.mk (pyStrip c0.data)]) acc
      = acc ++ rows.filterMap csvFirstFieldSpec := by
  induction rows with
  | nil => intro acc; simp
  | cons row rest ih =>
    intro acc
    simp only [List.foldl_cons, List.filterMap_cons]
    cases row with
    | nil => simp [csvFirstFieldSpec, ih]
    | cons c0 cs =>
      by_cases hc : pyStartsWith c0.data "#".data = true
      · simp [csvFirstFieldSpec, hc, ih]
      · simp only [Bool.not_eq_true] at hc
        simp [csvFirstFieldSpec, hc, ih]

/-- C10: the reader returns, in file order, the stripped first field of every
non-empty row whose raw first field does not start with `#`; any further
fields are ignored (only `row.head?` matters), and a first field whose `#` is
preceded by whitespace is kept, because the comment test runs before
stripping. -/
theorem read_codes_csv_characterization (rows : List (List String)) :
    read_product_codes_csv rows = rows.filterMap csvFirstFieldSpec ∧
    (∀ c0 cs, (c0 :: cs) ∈ rows → pyStartsWith c0.data "#".data = false →
      String.mk (pyStrip c0.data) ∈ read_product_codes_csv rows) := by
  have hfold := read_codes_csv_foldl rows []
  constructor
  · simpa [read_product_codes_csv] using hfold
  · intro c0 cs hmem hhash
    have : csvFirstFieldSpec (c0 :: cs) = some (String.mk (pyStrip c0.data)) := by
      simp [csvFirstFieldSpec, hhash]
    have hx : String.mk (pyStrip c0.data) ∈ rows.filterMap csvFirstFieldSpec :=
      List.mem_filterMap.mpr ⟨c0 :: cs, hmem, this⟩
    simpa [read_product_codes_csv, hfold] using hx

theorem read_codes_csv_characterization_witness :
    read_product_codes_csv [[" # x", "y"], ["#skip"], [], ["  123  "]]
      = ["# x", "123"] ∧
    "# x" ∈ read_product_codes_csv [[" # x", "y"], ["#skip"], [], ["  123  "]] := by
  have h := read_codes_csv_characterization
    [[" # x", "y"], ["#skip"], [], ["  123  "]]
  refine ⟨h.1.trans (by decide), ?_⟩
  have hm := h.2 " # x" ["y"] (by decide) (by decide)
  exact (show String.mk (pyStrip " # x".data) = "# x" by decide) ▸ hm

/-- Membership bridge between the modelled iteration list of the missing set
and the missing set itself. -/
theorem mem_missing_codes_list (all : List ProductData) (codes : List String)
    (c : String) :
    c ∈ missing_codes_list all codes ↔ c ∈ missing_codes all codes := by
  simp only [missing_codes_list, missing_codes, input_codes_set,
    found_codes_set, filtered_data]
  simp [List.mem_filter, List.mem_dedup, Finset.mem_sdiff, List.mem_toFinset,
    List.mem_map, List.elem_iff]

/-- C6: with a non-empty allow-list, filtering keeps exactly the records
whose code is in the allow-list; the missing set is the allow-list minus the
discovered codes (equivalently, minus the matched codes); and with force mode
on, for each missing code a stub record with the stated name, empty image URL
and a product URL ending in `/products/{code}` is present in the output. -/
theorem filter_force_characterization (sitemapUrl : String)
    (all : List ProductData) (codes : List String) (h : codes ≠ []) :
    (∀ p, p ∈ filtered_data all codes ↔ p ∈ all ∧ p.code ∈ codes) ∧
    missing_codes all codes
      = codes.toFinset \ (all.map (fun p => p.code)).toFinset ∧
    (∀ c ∈ missing_codes all codes,
      ∃ r ∈ filter_and_force sitemapUrl all codes true,
        r.code = c ∧ r.name = "Product " ++ c ∧ r.image_url = "" ∧
        ("/products/" ++ c).data <:+ r.product_url.data) := by
  refine ⟨?_, ?_, ?_⟩
  · intro p
    simp [filtered_data, List.mem_filter, List.elem_iff]
  · ext c
    simp only [missing_codes, input_codes_set, found_codes_set, filtered_data,
      Finset.mem_sdiff, List.mem_toFinset, List.mem_map, List.mem_filter,
      List.elem_iff]
    constructor
    · rintro ⟨hc, hn⟩
      refine ⟨hc, fun hex => hn ?_⟩
      obtain ⟨p, hp, he⟩ := hex
      exact ⟨p, ⟨hp, by rwa [he]⟩, he⟩
    · rintro ⟨hc, hn⟩
      refine ⟨hc, fun hex => hn ?_⟩
      obtain ⟨p, ⟨hp, _⟩, he⟩ := hex
      exact ⟨p, hp, he⟩
  · intro c hc
    have hcl : c ∈ missing_codes_list all codes :=
      (mem_missing_codes_list all codes c).mpr hc
    refine ⟨force_stub sitemapUrl c, ?_, rfl, rfl, rfl, ?_⟩
    · have hne : (missing_codes_list all codes).isEmpty = false := by
        cases hm : missing_codes_list all codes with
        | nil => rw [hm] at hcl; simp at hcl
        | cons a t => simp
      have hcodes : codes.isEmpty = false := by
        cases codes with
        | nil => exact absurd rfl h
        | cons a t => simp
      simp only [filter_and_force, hcodes, Bool.false_eq_true, if_false, hne,
        Bool.not_false, Bool.and_self, if_true]
      exact List.mem_append_right _ (List.mem_map.mpr ⟨c, hcl, rfl⟩)
    · show ("/products/" ++ c).data
        <:+ (base_url sitemapUrl ++ "/products/" ++ c).data
      rw [String.data_append, String.data_append, String.data_append,
        List.append_assoc]
      exact (List.suffix_append _ _)

/-- Discovered records for the witnesses: codes `A` and `C` only. -/
def sampleAll : List ProductData :=
  [{ code := "A", name := "Name A", image_url := "",
     product_url := "https://x.com/products/a" },
   { code := "C", name := "Name C", image_url := "",
     product_url := "https://x.com/products/c" }]

def sampleCodes : List String := ["A", "B", "C"]

def sampleSitemapUrl : String := "https://x.com/sitemap.xml"

theorem filter_force_characterization_witness :
    missing_codes sampleAll sampleCodes = {"B"} ∧
    (∃ r ∈ filter_and_force sampleSitemapUrl sampleAll sampleCodes true,
      r.code = "B" ∧ r.name = "Product " ++ "B" ∧ r.image_url = "" ∧
      ("/products/" ++ "B").data <:+ r.product_url.data) := by
  have h := filter_force_characterization sampleSitemapUrl sampleAll
    sampleCodes (by decide)
  refine ⟨h.2.1.trans (by decide), h.2.2 "B" ?_⟩
  rw [h.2.1]
  decide

/-- C9: force-mode stubs are appended after every sitemap-matched record, and
truncation by a positive cap removes stubs before it removes matched records:
the truncated list is a prefix of the matched records followed by a prefix of
the stubs, and once the cap is at most the number of matched records no stub
survives. -/
theorem force_stubs_after_matched (sitemapUrl : String)
    (all : List ProductData) (codes : List String) (maxProducts : Int)
    (h : codes ≠ []) :
    filter_and_force sitemapUrl all codes true
      = filtered_data all codes
        ++ (missing_codes_list all codes).map (force_stub sitemapUrl) ∧
    (0 < maxProducts →
      maxProducts < ((filter_and_force sitemapUrl all codes true).length : Int) →
      products_to_process maxProducts (filter_and_force sitemapUrl all codes true)
        = (filtered_data all codes).take maxProducts.toNat
          ++ ((missing_codes_list all codes).map (force_stub sitemapUrl)).take
              (maxProducts.toNat - (filtered_data all codes).length) ∧
      (maxProducts.toNat ≤ (filtered_data all codes).length →
        products_to_process maxProducts
            (filter_and_force sitemapUrl all codes true)
          = (filtered_data all codes).take maxProducts.toNat)) := by
  have hcodes : codes.isEmpty = false := by
    cases codes with
    | nil => exact absurd rfl h
    | cons a t => simp
  have heq : filter_and_force sitemapUrl all codes true
      = filtered_data all codes
        ++ (missing_codes_list all codes).map (force_stub sitemapUrl) := by
    by_cases hm : (missing_codes_list all codes).isEmpty
    · have hnil : missing_codes_list all codes = [] := by
        cases hx : missing_codes_list all codes with
        | nil => rfl
        | cons a t => rw [hx] at hm; simp at hm
      simp [filter_and_force, hcodes, hnil]
    · have hm' : (missing_codes_list all codes).isEmpty = false := by
        cases hx : (missing_codes_list all codes).isEmpty
        · rfl
        · exact absurd hx hm
      simp [filter_and_force, hcodes, hm']
  refine ⟨heq, ?_⟩
  intro hpos hlt
  have hcond : 0 < maxProducts ∧
      maxProducts < ((filter_and_force sitemapUrl all codes true).length : Int) :=
    ⟨hpos, hlt⟩
  rw [heq] at hcond
  constructor
  · simp only [products_to_process, if_pos hcond, heq]
    exact List.take_append_eq_append_take
  · intro hle
    simp only [products_to_process, if_pos hcond, heq]
    exact List.take_append_of_le_length hle

theorem force_stubs_after_matched_witness :
    filter_and_force sampleSitemapUrl sampleAll sampleCodes true
      = filtered_data sampleAll sampleCodes
        ++ (missing_codes_list sampleAll sampleCodes).map
            (force_stub sampleSitemapUrl) ∧
    products_to_process 2 (filter_and_force sampleSitemapUrl sampleAll
        sampleCodes true)
      = (filtered_data sampleAll sampleCodes).take 2 := by
  have h := force_stubs_after_matched sampleSitemapUrl sampleAll sampleCodes 2
    (by decide)
  refine ⟨h.1, ?_⟩
  have h2 := (h.2 (by decide) (by rw [h.1]; decide)).2 (by decide)
  exact h2

/-- A fixed prefix of the left operand is a prefix of the concatenation. -/
theorem pyStartsWith_append (a b p : List Char)
    (h : p.isPrefixOf a = true) : pyStartsWith (a ++ b) p = true := by
  unfold pyStartsWith
  rw [List.isPrefixOf_iff_prefix] at h ⊢
  exact h.trans (List.prefix_append a b)

/-- C2 counterexample: with a missing credential, `translate_to_spanish`
returns the fixed skip message, which does not carry the `NOT FOUND`
prefix. -/
theorem translate_missing_key_not_sentinel :
    translate_to_spanish none (.exc "boom") "text" sampleProduct emptyPageInfo
      = "API key not provided. Translation skipped." ∧
    pyStartsWith (translate_to_spanish none (.exc "boom") "text" sampleProduct
        emptyPageInfo).data "NOT FOUND".data = false := by
  exact ⟨rfl, by decide⟩

/-- C2 amended: a service error, a non-rate-limit error, and an exhausted
rate-limit retry all return a string carrying the `NOT FOUND` prefix, while a
missing credential returns the fixed skip message instead (and the adapter,
being a total function of the interaction outcome, never raises). -/
theorem translate_failure_classification (apiKey : Option String)
    (api : ApiResult) (text : String) (pd : ProductData) (di : PageInfo) :
    (keyMissing apiKey = true →
      translate_to_spanish apiKey api text pd di
        = "API key not provided. Translation skipped.") ∧
    (keyMissing apiKey = false →
      (∀ m, api = .exc m →
        pyStartsWith (translate_to_spanish apiKey api text pd di).data
          "NOT FOUND".data = true) ∧
      (∀ m r, api = .openaiErr m r →
        containsSub "rate limit".data (pyLower m.data) = false →
        pyStartsWith (translate_to_spanish apiKey api text pd di).data
          "NOT FOUND".data = true) ∧
      (∀ m m2, api = .openaiErr m (.fail m2) →
        containsSub "rate limit".data (pyLower m.data) = true →
        pyStartsWith (translate_to_spanish apiKey api text pd di).data
          "NOT FOUND".data = true)) := by
  constructor
  · intro hk
    simp [translate_to_spanish, hk]
  · intro hk
    refine ⟨?_, ?_, ?_⟩
    · rintro m rfl
      simp only [translate_to_spanish, hk, Bool.false_eq_true, if_false]
      rw [String.data_append]
      exact pyStartsWith_append _ _ _ (by decide)
    · rintro m r rfl hrl
      simp only [translate_to_spanish, hk, Bool.false_eq_true, if_false, hrl]
      rw [String.data_append]
      exact pyStartsWith_append _ _ _ (by decide)
    · rintro m m2 rfl hrl
      simp only [translate_to_spanish, hk, Bool.false_eq_true, if_false, hrl,
        if_true]
      rw [String.data_append]
      exact pyStartsWith_append _ _ _ (by decide)

theorem translate_failure_classification_witness :
    translate_to_spanish none (.ok "x") "t" sampleProduct emptyPageInfo
      = "API key not provided. Translation skipped." ∧
    pyStartsWith (translate_to_spanish (some "k") (.exc "boom") "t"
        sampleProduct emptyPageInfo).data "NOT FOUND".data = true ∧
    pyStartsWith (translate_to_spanish (some "k") (.openaiErr "oops" (.ok "x"))
        "t" sampleProduct emptyPageInfo).data "NOT FOUND".data = true ∧
    pyStartsWith (translate_to_spanish (some "k")
        (.openaiErr "Rate limit exceeded" (.fail "again")) "t" sampleProduct
        emptyPageInfo).data "NOT FOUND".data = true := by
  have h1 := (translate_failure_classification none (.ok "x") "t"
    sampleProduct emptyPageInfo).1 (by decide)
  have h2 := ((translate_failure_classification (some "k") (.exc "boom") "t"
    sampleProduct emptyPageInfo).2 (by decide)).1 "boom" rfl
  have h3 := ((translate_failure_classification (some "k")
    (.openaiErr "oops" (.ok "x")) "t" sampleProduct emptyPageInfo).2
    (by decide)).2.1 "oops" (.ok "x") rfl (by decide)
  have h4 := ((translate_failure_classification (some "k")
    (.openaiErr "Rate limit exceeded" (.fail "again")) "t" sampleProduct
    emptyPageInfo).2 (by decide)).2.2 "Rate limit exceeded" "again" rfl
    (by decide)
  exact ⟨h1, h2, h3, h4⟩

/-- Digits immediately following a hyphen, anywhere in the text. -/
def hyphenFollowedDigits : List Char → Bool
  | [] => false
  | c :: t =>
    (decide (c = '-') && !(t.takeWhile Char.isDigit).isEmpty)
      || hyphenFollowedDigits t

/-- Digits enclosed between an opening and a closing parenthesis. -/
def parenEnclosedDigits : List Char → Bool
  | [] => false
  | c :: t =>
    (decide (c = '(') && !(t.takeWhile Char.isDigit).isEmpty
      && decide ((t.drop (t.takeWhile Char.isDigit).length).head? = some ')'))
      || parenEnclosedDigits t

/-- Modelled from the claim's words: the name contains digits enclosed in
parentheses, or digits following a hyphen. -/
def nameDigitsParenOrHyphen (s : String) : Bool :=
  parenEnclosedDigits s.data || hyphenFollowedDigits s.data

/-- C8 counterexample: the name `"Tool -123"` has digits following a hyphen,
yet method 4 derives no code from it — the source regex `[-(](\d+)[)-]`
demands a closing `)` or `-` after the digits — so the state keeps no code
and such an entry is dropped rather than emitted. -/
theorem method4_hyphen_digits_counterexample :
    nameDigitsParenOrHyphen "Tool -123" = true ∧
    method4 (none, some "Tool -123") = (none, some "Tool -123") ∧
    firstEnclosedDigits "Tool -123".data = none := by
  decide

/-- The digit run captured by the delimiter regex is never empty. -/
theorem firstEnclosedDigits_ne_nil :
    ∀ l ds, firstEnclosedDigits l = some ds → ds ≠ [] := by
  intro l
  induction l with
  | nil => intro ds h; simp [firstEnclosedDigits] at h
  | cons c t ih =>
    intro ds h
    simp only [firstEnclosedDigits] at h
    split at h
    · split at h
      · rename_i hcond
        cases h
        simp only [Bool.and_eq_true, Bool.not_eq_true'] at hcond
        intro hnil
        rw [hnil] at hcond
        simp at hcond
      · exact ih ds h
    · exact ih ds h

/-- C8 amended: method 4 derives the code exactly from the first digit run
that is immediately preceded by `-` or `(` and immediately followed by `)` or
`-` in the already-extracted name; when the chain ends with a non-empty code
the entry is emitted as a record rather than dropped. -/
theorem method4_enclosed_digits_amended :
    (∀ (c : Option String) (n : String) (ds : List Char),
      truthyOpt c = false → n ≠ "" →
      firstEnclosedDigits n.data = some ds →
      method4 (c, some n) = (some (String.mk ds), some n) ∧
      String.mk ds ≠ "") ∧
    (∀ (e : UrlEntry) (loc cd : String) (nm : Option String),
      e.loc = some loc → containsSub "/products/".data loc.data = true →
      extract_code_name e loc = (some cd, nm) → cd ≠ "" →
      ∃ r ∈ parse_product_sitemap [e], r.code = cd ∧ r.product_url = loc) := by
  constructor
  · intro c n ds hc hn hd
    have hne : n.isEmpty = false := by
      cases hx : n.isEmpty
      · rfl
      · exact absurd ((String.isEmpty_iff n).mp hx) hn
    have hds := firstEnclosedDigits_ne_nil n.data ds hd
    have ht : truthyOpt (some n) = true := by simp [truthyOpt, hne]
    constructor
    · simp [method4, hc, ht, hd]
    · intro he
      apply hds
      have : (String.mk ds).data = ("" : String).data := by rw [he]
      simpa using this
  · intro e loc cd nm hloc hcont hext hcd
    refine ⟨{ code := cd,
              name := match nm with
                | some n2 => if n2 ≠ "" then n2 else "Unknown Product Name"
                | none => "Unknown Product Name",
              image_url := e.imageLoc.getD "",
              product_url := loc }, ?_, rfl, rfl⟩
    simp only [parse_product_sitemap, List.filterMap_cons, List.filterMap_nil,
      hloc, hcont, if_true, hext, hcd]
    cases nm <;> simp [hcd]

/-- Entry whose code is derivable only from the URL (method 3). -/
def sampleEntry : UrlEntry :=
  { loc := some "https://x.com/products/tool-77", imageLoc := none,
    imageCaption := none, textContent := "" }

theorem method4_enclosed_digits_amended_witness :
    method4 (none, some "Tool (123)") = (some "123", some "Tool (123)") ∧
    (∃ r ∈ parse_product_sitemap [sampleEntry],
      r.code = "77" ∧ r.product_url = "https://x.com/products/tool-77") := by
  have h1 := method4_enclosed_digits_amended.1 none "Tool (123)" "123".data
    (by decide) (by decide) (by decide)
  have h2 := method4_enclosed_digits_amended.2 sampleEntry
    "https://x.com/products/tool-77" "77" none rfl (by decide) (by decide)
    (by decide)
  exact ⟨h1.1, h2⟩

/-- Name/value pairs actually read from a JSON-LD `additionalProperty`
list. -/
def propPairs (ps : List JsonProp) : List (String × String) :=
  ps.filterMap (fun p =>
    match p.nameVal, p.valueVal with
    | some n, some v => some (n, v)
    | _, _ => none)

/-- Specification pairs contributed by the JSON-LD block (empty when the
script is absent, malformed, non-dict, or without `additionalProperty`). -/
def jsonLdProps (soup : Soup) : List (String × String) :=
  match soup.jsonLd with
  | some (.dict _ (some ps)) => propPairs ps
  | _ => []

/-- Specification dictionary built by the definition-list fallback alone. -/
def dlSpecs (soup : Soup) : List (String × String) :=
  soup.dls.foldl (fun d dl =>
    (dl.1.zip dl.2).foldl (fun d kv => dictInsert d kv.1 kv.2) d) []

/-- A fold whose step only rewrites the `specifications` field factors
through that field. -/
theorem foldl_specifications {α : Type}
    (g : List (String × String) → α → List (String × String))
    (step : PageInfo → α → PageInfo)
    (hstep : ∀ r a, step r a = { r with specifications := g r.specifications a }) :
    ∀ (l : List α) (r : PageInfo),
      l.foldl step r = { r with specifications := l.foldl g r.specifications } := by
  intro l
  induction l with
  | nil => intro r; simp
  | cons a rest ih =>
    intro r
    rw [List.foldl_cons, List.foldl_cons, hstep, ih]

/-- The description phase never touches the specifications. -/
theorem descPhase_specifications (soup : Soup) (r : PageInfo) :
    (descPhase soup r).specifications = r.specifications := by
  unfold descPhase
  cases firstMatch description_selectors soup.descSel with
  | none => rfl
  | some e =>
    dsimp only
    split <;> rfl

/-- When no specification selector matches, the selector phase is the
identity. -/
theorem specPhase_empty (soup : Soup)
    (hsel : ∀ s ∈ spec_selectors, soup.specSel s = []) :
    ∀ r, specPhase soup r = r := by
  intro r
  have e1 := hsel ".product-single__specs-table" (by simp [spec_selectors])
  have e2 := hsel ".specs-table" (by simp [spec_selectors])
  have e3 := hsel ".product-specs" (by simp [spec_selectors])
  have e4 := hsel ".specifications" (by simp [spec_selectors])
  have e5 := hsel "table.specs" (by simp [spec_selectors])
  have e6 := hsel "[itemprop=additionalProperty]" (by simp [spec_selectors])
  unfold specPhase
  simp [spec_selectors, firstMatch, e1, e2, e3, e4, e5, e6]

/-- Folding the raw property list equals folding just the readable
name/value pairs. -/
theorem propPairs_foldl (ps : List JsonProp) :
    ∀ d, ps.foldl (fun d p =>
      match p.nameVal, p.valueVal with
      | some n, some v => dictInsert d n v
      | _, _ => d) d
    = (propPairs ps).foldl (fun d kv => dictInsert d kv.1 kv.2) d := by
  induction ps with
  | nil => intro d; simp [propPairs]
  | cons p rest ih =>
    intro d
    rcases p with ⟨pn, pv⟩
    cases pn <;> cases pv <;>
      simp only [propPairs, List.filterMap_cons, List.foldl_cons] <;>
      exact ih _

/-- The JSON-LD phase appends exactly the read name/value pairs to the
specifications. -/
theorem jsonLdPhase_specifications (soup : Soup) (r : PageInfo) :
    (jsonLdPhase soup r).specifications
      = (jsonLdProps soup).foldl (fun d kv => dictInsert d kv.1 kv.2)
          r.specifications := by
  unfold jsonLdPhase jsonLdProps
  cases hj : soup.jsonLd with
  | none => rfl
  | some j =>
    cases j with
    | malformed => rfl
    | nondict => rfl
    | dict desc props =>
      cases props with
      | none =>
        cases desc with
        | none => rfl
        | some d =>
          dsimp only
          split <;> rfl
      | some ps =>
        have hfold := foldl_specifications
          (fun d (p : JsonProp) =>
            match p.nameVal, p.valueVal with
            | some n, some v => dictInsert d n v
            | _, _ => d)
          (fun r p =>
            match p.nameVal, p.valueVal with
            | some n, some v =>
              { r with specifications := dictInsert r.specifications n v }
            | _, _ => r)
          (by
            intro r p
            rcases p with ⟨pn, pv⟩
            cases pn <;> cases pv <;> simp)
          ps
        cases desc with
        | none =>
          dsimp only
          rw [hfold]
          simpa using propPairs_foldl ps r.specifications
        | some d =>
          dsimp only
          split
          · rw [hfold]
            simpa using propPairs_foldl ps r.specifications
          · rw [hfold]
            simpa using propPairs_foldl ps r.specifications

/-- With no specification yet, the dl fallback fills the specifications with
exactly the definition-list dictionary. -/
theorem dlPhase_empty_spec (soup : Soup) (r : PageInfo)
    (hs : r.specifications = []) :
    dlPhase soup r = { r with specifications := dlSpecs soup } := by
  have houter := foldl_specifications
    (fun d (dl : List String × List String) =>
      (dl.1.zip dl.2).foldl (fun d kv => dictInsert d kv.1 kv.2) d)
    (fun r (dl : List String × List String) =>
      (dl.1.zip dl.2).foldl (fun r kv =>
        { r with specifications := dictInsert r.specifications kv.1 kv.2 }) r)
    (fun r dl => foldl_specifications
      (fun d kv => dictInsert d kv.1 kv.2)
      (fun r kv =>
        { r with specifications := dictInsert r.specifications kv.1 kv.2 })
      (fun _ _ => rfl) (dl.1.zip dl.2) r)
    soup.dls
  unfold dlPhase
  rw [if_pos hs, houter r, hs]
  rfl

/-- With specifications already present, the dl fallback does nothing. -/
theorem dlPhase_nonempty (soup : Soup) (r : PageInfo)
    (hs : r.specifications ≠ []) : dlPhase soup r = r := by
  unfold dlPhase
  rw [if_neg hs]

/-- The set-items phase never touches the specifications. -/
theorem setPhase_specifications (soup : Soup) (r : PageInfo) :
    (setPhase soup r).specifications = r.specifications := by
  unfold setPhase
  cases firstMatch set_items_selectors
      (fun s => match soup.setSel s with
        | [] => none
        | cs => some cs) with
  | none => rfl
  | some containers => cases containers <;> rfl

/-- The generalized fallback never touches the specifications. -/
theorem generalPhase_specifications (soup : Soup) (r : PageInfo) :
    (generalPhase soup r).specifications = r.specifications := by
  unfold generalPhase
  split
  · cases soup.prodInfoSections.find? (fun t => t ≠ "") <;> rfl
  · rfl

/-- Dictionary insertion never yields the empty dictionary. -/
theorem dictInsert_ne_nil (d : List (String × String)) (k v : String) :
    dictInsert d k v ≠ [] := by
  unfold dictInsert
  split
  · rename_i ha
    cases d with
    | nil => simp at ha
    | cons x xs => simp
  · simp

/-- A dictionary fold from a non-empty dictionary stays non-empty. -/
theorem dictFold_ne_nil (ps : List (String × String)) :
    ∀ d, d ≠ [] →
      ps.foldl (fun d kv => dictInsert d kv.1 kv.2) d ≠ [] := by
  induction ps with
  | nil => intro d hd; simpa
  | cons kv rest ih =>
    intro d _
    rw [List.foldl_cons]
    exact ih _ (dictInsert_ne_nil _ _ _)

/-- C3 amended: when no specification-table selector matches, the JSON-LD
block runs first (whenever present, not gated on the dl scan): its
`additionalProperty` pairs fill the specifications, its `description` is read
only when the description is still empty, and malformed or non-dict payloads
are skipped; only if the specifications are still empty afterwards does the
extractor scan the definition lists, pairing terms with descriptions by
position. -/
theorem specs_jsonld_precedes_dl (soup : Soup)
    (hsel : ∀ s ∈ spec_selectors, soup.specSel s = []) :
    (parse_product_page (some soup)).specifications
      = if jsonLdProps soup = [] then dlSpecs soup
        else (jsonLdProps soup).foldl (fun d kv => dictInsert d kv.1 kv.2) [] := by
  show (generalPhase soup (setPhase soup (dlPhase soup (jsonLdPhase soup
      (specPhase soup (descPhase soup emptyPageInfo)))))).specifications = _
  rw [specPhase_empty soup hsel]
  have h0 : (descPhase soup emptyPageInfo).specifications = [] := by
    rw [descPhase_specifications]; rfl
  have h2 : (jsonLdPhase soup (descPhase soup emptyPageInfo)).specifications
      = (jsonLdProps soup).foldl (fun d kv => dictInsert d kv.1 kv.2) [] := by
    rw [jsonLdPhase_specifications, h0]
  by_cases hj : jsonLdProps soup = []
  · have h3 : (jsonLdPhase soup (descPhase soup emptyPageInfo)).specifications
        = [] := by rw [h2, hj]; rfl
    rw [generalPhase_specifications, setPhase_specifications,
      dlPhase_empty_spec soup _ h3, if_pos hj]
  · have h3 : (jsonLdPhase soup (descPhase soup emptyPageInfo)).specifications
        ≠ [] := by
      rw [h2]
      cases hp : jsonLdProps soup with
      | nil => exact absurd hp hj
      | cons kv rest =>
        rw [List.foldl_cons]
        exact dictFold_ne_nil rest _ (dictInsert_ne_nil _ _ _)
    rw [generalPhase_specifications, setPhase_specifications,
      dlPhase_nonempty soup _ h3, h2, if_neg hj]

/-- Modelled from the spec sentence for comparison with the code: selector
tables first; "if no selector matches, fall back to scanning all
definition-list elements...; if still empty, fall back to embedded
structured-data (JSON-LD) blocks". -/
def spec_order_specifications (soup : Soup) : List (String × String) :=
  let fromSel :=
    match firstMatch spec_selectors
        (fun s => match soup.specSel s with
          | [] => none
          | ts => some ts) with
    | none => []
    | some tables =>
      tables.foldl (fun d t =>
        t.foldl (fun d row =>
          match row with
          | k :: v :: _ => dictInsert d k v
          | _ => d) d) []
  let afterDl := if fromSel = [] then dlSpecs soup else fromSel
  if afterDl = [] then
    (jsonLdProps soup).foldl (fun d kv => dictInsert d kv.1 kv.2) []
  else afterDl

/-- Document with no matching specification selector, one definition list
`(A, 1)`, and a JSON-LD block contributing `(B, 2)`. -/
def sampleSoupJsonDl : Soup :=
  { descSel := fun _ => none, specSel := fun _ => [],
    jsonLd := some (.dict none (some [{ nameVal := some "B",
                                        valueVal := some "2" }])),
    dls := [(["A"], ["1"])], setSel := fun _ => [], prodInfoSections := [] }

/-- C3 counterexample: on a page where no specification selector matches and
both a definition list and a JSON-LD block are present, the code takes the
JSON-LD pairs (the dl scan is skipped because the JSON-LD already filled the
specifications), while the claimed order (dl first, JSON-LD only if still
empty) would take the definition-list pairs. -/
theorem parse_specs_order_counterexample :
    (parse_product_page (some sampleSoupJsonDl)).specifications = [("B", "2")] ∧
    spec_order_specifications sampleSoupJsonDl = [("A", "1")] ∧
    (parse_product_page (some sampleSoupJsonDl)).specifications
      ≠ spec_order_specifications sampleSoupJsonDl := by
  refine ⟨rfl, rfl, by decide⟩

theorem specs_jsonld_precedes_dl_witness :
    (parse_product_page (some sampleSoupJsonDl)).specifications
      = (if jsonLdProps sampleSoupJsonDl = [] then dlSpecs sampleSoupJsonDl
         else (jsonLdProps sampleSoupJsonDl).foldl
           (fun d kv => dictInsert d kv.1 kv.2) []) ∧
    (if jsonLdProps sampleSoupJsonDl = [] then dlSpecs sampleSoupJsonDl
     else (jsonLdProps sampleSoupJsonDl).foldl
       (fun d kv => dictInsert d kv.1 kv.2) []) = [("B", "2")] := by
  exact ⟨specs_jsonld_precedes_dl sampleSoupJsonDl (fun s _ => rfl), by decide⟩

/-! ## Newline-run analysis for the composer -/

/-- Every character of the list is a newline. -/
def allNl (l : List Char) : Bool :=
  l.all (fun c => c = '\n')

theorem leadNl_le_length (l : List Char) : leadNl l ≤ l.length := by
  induction l with
  | nil => simp [leadNl]
  | cons c t ih =>
    simp only [leadNl, List.length_cons]
    split <;> omega

theorem leadNl_eq_length_of_allNl (l : List Char) (h : allNl l = true) :
    leadNl l = l.length := by
  induction l with
  | nil => rfl
  | cons c t ih =>
    simp only [allNl, List.all_cons, Bool.and_eq_true, decide_eq_true_eq] at h
    simp only [leadNl, List.length_cons, if_pos h.1]
    rw [ih h.2]

theorem leadNl_append_of_allNl (a b : List Char) (h : allNl a = true) :
    leadNl (a ++ b) = a.length + leadNl b := by
  induction a with
  | nil => simp
  | cons c t ih =>
    simp only [allNl, List.all_cons, Bool.and_eq_true, decide_eq_true_eq] at h
    simp only [List.cons_append, leadNl, if_pos h.1, List.length_cons]
    rw [List.append_eq, ih h.2]
    omega

theorem leadNl_append_of_not_allNl (a b : List Char) (h : allNl a = false) :
    leadNl (a ++ b) = leadNl a := by
  induction a with
  | nil => simp [allNl] at h
  | cons c t ih =>
    by_cases hc : c = '\n'
    · have ht : allNl t = false := by
        simpa [allNl, hc] using h
      simp only [List.cons_append, leadNl, if_pos hc]
      rw [List.append_eq, ih ht]
    · simp only [List.cons_append, leadNl, if_neg hc]

theorem nlFree_allNl_false (l : List Char) (hne : l ≠ []) (h : nlFree l) :
    allNl l = false := by
  cases l with
  | nil => exact absurd rfl hne
  | cons c t =>
    have hc : c ≠ '\n' := fun he => h (he ▸ List.mem_cons_self c t)
    simp [allNl, hc]

theorem nlFree_leadNl (l : List Char) (h : nlFree l) : leadNl l = 0 := by
  cases l with
  | nil => rfl
  | cons c t =>
    have hc : c ≠ '\n' := fun he => h (he ▸ List.mem_cons_self c t)
    simp [leadNl, hc]

theorem nlFree_reverse (l : List Char) (h : nlFree l) : nlFree l.reverse := by
  intro hm
  exact h (List.mem_reverse.mp hm)

theorem nlFree_trailNl (l : List Char) (h : nlFree l) : trailNl l = 0 :=
  nlFree_leadNl l.reverse (nlFree_reverse l h)

theorem trailNl_append_of_allNl (a b : List Char) (h : allNl b = true) :
    trailNl (a ++ b) = trailNl a + b.length := by
  unfold trailNl
  rw [List.reverse_append,
    leadNl_append_of_allNl _ _ (by rwa [allNl, List.all_reverse]),
    List.length_reverse]
  omega

theorem trailNl_append_of_not_allNl (a b : List Char) (h : allNl b = false) :
    trailNl (a ++ b) = trailNl b := by
  unfold trailNl
  rw [List.reverse_append,
    leadNl_append_of_not_allNl _ _ (by rwa [allNl, List.all_reverse])]

theorem trailNl_cons_ge (c : Char) (t : List Char) :
    trailNl t ≤ trailNl (c :: t) := by
  unfold trailNl
  rw [List.reverse_cons]
  by_cases h : allNl t.reverse
  · rw [leadNl_append_of_allNl _ _ h, leadNl_eq_length_of_allNl _ h]
    omega
  · rw [leadNl_append_of_not_allNl _ _ (by simpa using h)]

theorem hasRunGe_cons_false (k : Nat) (c : Char) (t : List Char)
    (h : hasRunGe k (c :: t) = false) :
    leadNl (c :: t) < k ∧ hasRunGe k t = false := by
  have := h
  simp only [hasRunGe, Bool.or_eq_false_iff, decide_eq_false_iff_not,
    Nat.not_le] at this
  exact this

theorem hasRunGe_cons_false_of (k : Nat) (c : Char) (t : List Char)
    (h1 : leadNl (c :: t) < k) (h2 : hasRunGe k t = false) :
    hasRunGe k (c :: t) = false := by
  simp only [hasRunGe, Bool.or_eq_false_iff, decide_eq_false_iff_not,
    Nat.not_le]
  exact ⟨h1, h2⟩

theorem nlFree_hasRunGe (k : Nat) (l : List Char) (hk : 0 < k)
    (h : nlFree l) : hasRunGe k l = false := by
  induction l with
  | nil => rfl
  | cons c t ih =>
    have ht : nlFree t := fun hm => h (List.mem_cons_of_mem c hm)
    refine hasRunGe_cons_false_of k c t ?_ (ih ht)
    rw [nlFree_leadNl _ h]
    exact hk

/-- The central append rule: concatenation creates no `k`-run when neither
part has one and the boundary run is short. -/
theorem hasRunGe_append (k : Nat) (hk : 0 < k) :
    ∀ (a b : List Char), hasRunGe k a = false → hasRunGe k b = false →
      trailNl a + leadNl b < k → hasRunGe k (a ++ b) = false := by
  intro a
  induction a with
  | nil =>
    intro b _ hb _
    simpa using hb
  | cons c t ih =>
    intro b ha hb hbound
    obtain ⟨hlead, hat⟩ := hasRunGe_cons_false k c t ha
    have htr : trailNl t ≤ trailNl (c :: t) := trailNl_cons_ge c t
    rw [List.cons_append]
    refine hasRunGe_cons_false_of k c (t ++ b) ?_ (ih b hat hb (by omega))
    show leadNl ((c :: t) ++ b) < k
    by_cases hall : allNl (c :: t)
    · rw [leadNl_append_of_allNl _ _ hall]
      have : trailNl (c :: t) = (c :: t).length := by
        unfold trailNl
        rw [leadNl_eq_length_of_allNl _ (by rwa [allNl, List.all_reverse]),
          List.length_reverse]
      omega
    · rw [leadNl_append_of_not_allNl _ _ (by simpa using hall)]
      exact hlead

/-- When no three leading newlines are present, the replacement pass passes
the head through unchanged. -/
theorem pyReplace3_cons_not3 (c : Char) (t : List Char)
    (h : leadNl (c :: t) ≤ 2) :
    pyReplace3 (c :: t) = c :: pyReplace3 t := by
  cases t with
  | nil => rfl
  | cons d r =>
    cases r with
    | nil => rfl
    | cons e r2 =>
      have hcond : ¬(c = '\n' ∧ d = '\n' ∧ e = '\n') := by
        rintro ⟨h1, h2, h3⟩
        simp [leadNl, h1, h2, h3] at h
      simp [pyReplace3, hcond]

/-- A positive leading run starts with a newline. -/
theorem leadNl_pos_destruct (l : List Char) (h : 0 < leadNl l) :
    ∃ t, l = '\n' :: t ∧ leadNl l = leadNl t + 1 := by
  cases l with
  | nil => simp [leadNl] at h
  | cons c t =>
    by_cases hc : c = '\n'
    · exact ⟨t, by rw [hc], by simp [leadNl, hc]⟩
    · simp [leadNl, hc] at h

/-- The replacement pass keeps a leading run of length at most one. -/
theorem leadNl_replace_le_one : ∀ (t : List Char), leadNl t ≤ 1 →
    leadNl (pyReplace3 t) = leadNl t := by
  have hzero : ∀ (t : List Char), leadNl t = 0 →
      leadNl (pyReplace3 t) = 0 := by
    intro t h0
    cases t with
    | nil => rfl
    | cons c r =>
      have hc : c ≠ '\n' := by
        intro hc
        simp [leadNl, hc] at h0
      rw [pyReplace3_cons_not3 c r (by simp [leadNl, hc])]
      simp [leadNl, hc]
  intro t h
  cases h1 : leadNl t with
  | zero => rw [hzero t h1]
  | succ m =>
    have hm : m = 0 := by omega
    subst hm
    obtain ⟨t2, ht2, hl2⟩ := leadNl_pos_destruct t (by omega)
    subst ht2
    have hlt2 : leadNl t2 = 0 := by
      rw [h1] at hl2
      omega
    rw [pyReplace3_cons_not3 _ _ (by rw [h1]; omega)]
    simp [leadNl, hzero t2 hlt2, hlt2]

/-- Core run-shortening fact: if the input has no run of five newlines, the
single replacement pass leaves no run of four. -/
theorem replace3_no4 (l : List Char) (h5 : hasRunGe 5 l = false) :
    hasRunGe 4 (pyReplace3 l) = false := by
  have main : ∀ (n : Nat) (l : List Char), l.length ≤ n →
      hasRunGe 5 l = false → hasRunGe 4 (pyReplace3 l) = false := by
    intro n
    induction n with
    | zero =>
      intro l hl _
      have hnil : l = [] := List.length_eq_zero.mp (Nat.le_zero.mp hl)
      subst hnil
      rfl
    | succ n ih =>
      intro l hl h5
      cases l with
      | nil => rfl
      | cons c t =>
        obtain ⟨hlead, h5t⟩ := hasRunGe_cons_false 5 c t h5
        have hlt : t.length ≤ n := by
          simp only [List.length_cons] at hl
          omega
        by_cases hc : c = '\n'
        · subst hc
          have hleadt : leadNl t ≤ 3 := by
            simp [leadNl] at hlead
            omega
          by_cases h2 : 2 ≤ leadNl t
          · obtain ⟨t1, ht1, hl1⟩ := leadNl_pos_destruct t (by omega)
            subst ht1
            obtain ⟨t2, ht2, hl2⟩ := leadNl_pos_destruct t1 (by omega)
            subst ht2
            have hR : pyReplace3 ('\n' :: '\n' :: '\n' :: t2)
                = '\n' :: '\n' :: pyReplace3 t2 := by
              simp [pyReplace3]
            rw [hR]
            have hlt2 : leadNl t2 ≤ 1 := by omega
            have h5t2 : hasRunGe 5 t2 = false := by
              have a1 := (hasRunGe_cons_false 5 _ _ h5t).2
              exact (hasRunGe_cons_false 5 _ _ a1).2
            have hRlead : leadNl (pyReplace3 t2) = leadNl t2 :=
              leadNl_replace_le_one t2 hlt2
            have hlen2 : t2.length ≤ n := by
              simp only [List.length_cons] at hlt
              omega
            refine hasRunGe_cons_false_of 4 _ _ ?_
              (hasRunGe_cons_false_of 4 _ _ ?_ (ih t2 hlen2 h5t2))
            · simp [leadNl, hRlead]
              omega
            · simp [leadNl, hRlead]
              omega
          · have hcons : leadNl ('\n' :: t) ≤ 2 := by
              simp [leadNl]
              omega
            rw [pyReplace3_cons_not3 _ _ hcons]
            refine hasRunGe_cons_false_of 4 _ _ ?_ (ih t hlt h5t)
            have := leadNl_replace_le_one t (by omega)
            simp [leadNl, this]
            omega
        · rw [pyReplace3_cons_not3 c t (by simp [leadNl, hc])]
          refine hasRunGe_cons_false_of 4 _ _ ?_ (ih t hlt h5t)
          simp [leadNl, hc]
  exact main l.length l le_rfl h5

theorem hasRunGe_mono (j k : Nat) (hjk : j ≤ k) :
    ∀ l, hasRunGe j l = false → hasRunGe k l = false := by
  intro l
  induction l with
  | nil => intro _; rfl
  | cons c t ih =>
    intro h
    obtain ⟨h1, h2⟩ := hasRunGe_cons_false j c t h
    exact hasRunGe_cons_false_of k c t (by omega) (ih h2)

theorem intercalate_single (sep x : List Char) :
    List.intercalate sep [x] = x := by
  simp [List.intercalate]

theorem intercalate_cons_cons (sep x y : List Char)
    (rest : List (List Char)) :
    List.intercalate sep (x :: y :: rest)
      = x ++ sep ++ List.intercalate sep (y :: rest) := by
  simp [List.intercalate, List.intersperse]

theorem intercalate_expand (s y : List Char) (rest : List (List Char)) :
    List.intercalate ['\n'] (s :: y :: rest)
      = s ++ ('\n' :: List.intercalate ['\n'] (y :: rest)) := by
  rw [intercalate_cons_cons, List.append_assoc]
  rfl

theorem intercalate_ne_nil (sep x : List Char) (rest : List (List Char))
    (hx : x ≠ []) : List.intercalate sep (x :: rest) ≠ [] := by
  cases rest with
  | nil => rw [intercalate_single]; exact hx
  | cons y r =>
    rw [intercalate_cons_cons]
    intro h
    rw [List.append_assoc] at h
    exact hx (List.append_eq_nil.mp h).1

theorem intercalate_cons_head (sep : List Char) (c : Char) (x : List Char)
    (rest : List (List Char)) :
    List.intercalate sep ((c :: x) :: rest)
      = c :: List.intercalate sep (x :: rest) := by
  cases rest with
  | nil => rw [intercalate_single, intercalate_single]
  | cons y r =>
    rw [intercalate_cons_cons, intercalate_cons_cons]
    simp

theorem allNl_false_of_head (J : List Char) (hne : J ≠ [])
    (hl : leadNl J = 0) : allNl J = false := by
  cases J with
  | nil => exact absurd rfl hne
  | cons j js =>
    have : j ≠ '\n' := by
      intro he
      simp [leadNl, he] at hl
    simp [allNl, this]

/-- Joining non-empty newline-free lines with single newlines yields text
with no two consecutive newlines, no leading and no trailing newline. -/
theorem intercalate_lines_facts :
    ∀ (lines : List (List Char)), (∀ l ∈ lines, nlFree l ∧ l ≠ []) →
    hasRunGe 2 (List.intercalate ['\n'] lines) = false ∧
    leadNl (List.intercalate ['\n'] lines) = 0 ∧
    trailNl (List.intercalate ['\n'] lines) = 0 := by
  intro lines
  induction lines with
  | nil => intro _; exact ⟨rfl, rfl, rfl⟩
  | cons x rest ih =>
    intro hall
    have hx := hall x (List.mem_cons_self x rest)
    cases rest with
    | nil =>
      rw [intercalate_single]
      exact ⟨nlFree_hasRunGe 2 x (by omega) hx.1, nlFree_leadNl x hx.1,
        nlFree_trailNl x hx.1⟩
    | cons y r =>
      have hrest : ∀ l ∈ (y :: r), nlFree l ∧ l ≠ [] := fun l hl =>
        hall l (List.mem_cons_of_mem x hl)
      obtain ⟨hJ2, hJl, hJt⟩ := ih hrest
      have hy := hrest y (List.mem_cons_self y r)
      have hJne : List.intercalate ['\n'] (y :: r) ≠ [] :=
        intercalate_ne_nil _ y r hy.2
      set J := List.intercalate ['\n'] (y :: r) with hJ
      rw [intercalate_expand]
      have hallJ : allNl J = false := allNl_false_of_head J hJne hJl
      have hBrun : hasRunGe 2 ('\n' :: J) = false := by
        refine hasRunGe_cons_false_of 2 _ _ ?_ hJ2
        simp [leadNl, hJl]
      have hBlead : leadNl ('\n' :: J) = 1 := by simp [leadNl, hJl]
      refine ⟨?_, ?_, ?_⟩
      · refine hasRunGe_append 2 (by omega) x ('\n' :: J)
          (nlFree_hasRunGe 2 x (by omega) hx.1) hBrun ?_
        rw [nlFree_trailNl x hx.1, hBlead]
        omega
      · rw [leadNl_append_of_not_allNl _ _ (nlFree_allNl_false x hx.2 hx.1),
          nlFree_leadNl x hx.1]
      · have h' : allNl ('\n' :: J) = false := by
          simp only [allNl, List.all_cons] at hallJ ⊢
          simp [hallJ]
        rw [trailNl_append_of_not_allNl _ _ h',
          show ('\n' :: J) = ['\n'] ++ J from rfl,
          trailNl_append_of_not_allNl _ _ hallJ, hJt]

/-- Facts about a section of the form newline-then-joined-lines. -/
theorem nlhead_facts (J : List Char) (h2 : hasRunGe 2 J = false)
    (hl : leadNl J = 0) (ht : trailNl J = 0) (hne : J ≠ []) :
    hasRunGe 2 ('\n' :: J) = false ∧ leadNl ('\n' :: J) = 1 ∧
    trailNl ('\n' :: J) = 0 ∧ allNl ('\n' :: J) = false := by
  have hallJ : allNl J = false := allNl_false_of_head J hne hl
  refine ⟨?_, ?_, ?_, ?_⟩
  · exact hasRunGe_cons_false_of 2 _ _ (by simp [leadNl, hl]) h2
  · simp [leadNl, hl]
  · rw [show ('\n' :: J) = ['\n'] ++ J from rfl,
      trailNl_append_of_not_allNl _ _ hallJ, ht]
  · simp only [allNl, List.all_cons] at hallJ ⊢
    simp [hallJ]

/-- One chain step over a non-empty section with no trailing newline. -/
theorem chain_step (s S : List Char) (hs5 : hasRunGe 5 s = false)
    (ht : trailNl s = 0) (hall : allNl s = false)
    (hS5 : hasRunGe 5 S = false) (hSl : leadNl S ≤ 3) :
    hasRunGe 5 (s ++ ('\n' :: S)) = false ∧
    leadNl (s ++ ('\n' :: S)) = leadNl s := by
  have hB : hasRunGe 5 ('\n' :: S) = false :=
    hasRunGe_cons_false_of 5 _ _ (by simp [leadNl]; omega) hS5
  constructor
  · refine hasRunGe_append 5 (by omega) _ _ hs5 hB ?_
    rw [ht]
    simp [leadNl]
    omega
  · rw [leadNl_append_of_not_allNl _ _ hall]

/-- One chain step over an empty section. -/
theorem chain_step_empty (S : List Char) (hS5 : hasRunGe 5 S = false)
    (hSl : leadNl S ≤ 3) :
    hasRunGe 5 ('\n' :: S) = false ∧ leadNl ('\n' :: S) = leadNl S + 1 :=
  ⟨hasRunGe_cons_false_of 5 _ _ (by simp [leadNl]; omega) hS5,
   by simp [leadNl]⟩

/-- One chain step over a section that is either empty or newline-headed. -/
theorem chain_step_opt (s S : List Char) (m : Nat) (hm : m ≤ 2)
    (hs : s = [] ∨ (hasRunGe 5 s = false ∧ leadNl s = 1 ∧ trailNl s = 0 ∧
      allNl s = false))
    (hS5 : hasRunGe 5 S = false) (hSl : leadNl S ≤ m) :
    hasRunGe 5 (s ++ ('\n' :: S)) = false ∧
    leadNl (s ++ ('\n' :: S)) ≤ m + 1 := by
  rcases hs with rfl | ⟨h5, hl, ht, hall⟩
  · rw [List.nil_append]
    obtain ⟨a, b⟩ := chain_step_empty S hS5 (by omega)
    exact ⟨a, by omega⟩
  · obtain ⟨a, b⟩ := chain_step s S h5 ht hall hS5 (by omega)
    exact ⟨a, by omega⟩

theorem nlFree_append (a b : List Char) (ha : nlFree a) (hb : nlFree b) :
    nlFree (a ++ b) := by
  intro hm
  rcases List.mem_append.mp hm with h | h
  · exact ha h
  · exact hb h

theorem ne_nil_append_left {α : Type} (a b : List α) (ha : a ≠ []) :
    a ++ b ≠ [] := by
  intro h
  exact ha (List.append_eq_nil.mp h).1

/-- The title line is newline-free and non-empty under newline-free
inputs. -/
theorem product_title_facts (pd : ProductData) (hcode : nlFree pd.code.data)
    (hname : nlFree pd.name.data) :
    nlFree (product_title pd) ∧ product_title pd ≠ [] := by
  unfold product_title
  simp only [List.append_assoc]
  constructor
  · exact nlFree_append _ _ (by decide)
      (nlFree_append _ _ hcode (nlFree_append _ _ (by decide) hname))
  · exact ne_nil_append_left _ _ (by decide)

/-- The introduction paragraph is newline-free and non-empty under
newline-free inputs. -/
theorem introPara_facts (pd : ProductData) (di : PageInfo)
    (hcode : nlFree pd.code.data) (hname : nlFree pd.name.data)
    (hdesc : nlFree di.description.data) :
    nlFree (introPara pd di) ∧ introPara pd di ≠ [] := by
  unfold introPara
  simp only [List.append_assoc]
  constructor
  · refine nlFree_append _ _ (by decide) (nlFree_append _ _ hcode
      (nlFree_append _ _ (by decide) (nlFree_append _ _ hname
        (nlFree_append _ _ (by decide) ?_))))
    split
    · exact (by decide : nlFree genericIntro.data)
    · exact hdesc
  · exact ne_nil_append_left _ _ (by decide)

/-- All feature lines are newline-free and non-empty under newline-free
specification pairs. -/
theorem featuresBlock_lines (di : PageInfo)
    (hspec : ∀ kv ∈ di.specifications, nlFree kv.1.data ∧ nlFree kv.2.data) :
    ∀ l ∈ featuresBlock di, nlFree l ∧ l ≠ [] := by
  intro l hl
  have hbase : ∀ l ∈ featureLines di, nlFree l ∧ l ≠ [] := by
    intro l hl
    rcases List.mem_cons.mp hl with rfl | hl2
    · exact ⟨by decide, by decide⟩
    · obtain ⟨kv, hkv, heq⟩ := List.mem_filterMap.mp hl2
      split at heq
      · cases heq
      · cases heq
        simp only [List.append_assoc]
        constructor
        · exact nlFree_append _ _ (by decide)
            (nlFree_append _ _ (hspec kv hkv).1
              (nlFree_append _ _ (by decide) (hspec kv hkv).2))
        · exact ne_nil_append_left _ _ (by decide)
  simp only [featuresBlock] at hl
  split at hl
  · rcases List.mem_append.mp hl with h | h
    · exact hbase l h
    · simp only [genericFeatures, List.mem_cons, List.not_mem_nil,
        or_false] at h
      rcases h with rfl | rfl | rfl | rfl <;> exact ⟨by decide, by decide⟩
  · exact hbase l hl

/-- Bundle of facts used for the optional and fixed newline-headed
sections. -/
def SectionBundle (s : List Char) : Prop :=
  hasRunGe 5 s = false ∧ leadNl s = 1 ∧ trailNl s = 0 ∧ allNl s = false

/-- A newline-headed join of good lines gives the section bundle. -/
theorem nlhead_section_bundle (hdr : List Char) (lines : List (List Char))
    (hhdr : nlFree hdr ∧ hdr ≠ [])
    (hlines : ∀ l ∈ lines, nlFree l ∧ l ≠ []) :
    SectionBundle ('\n' :: List.intercalate ['\n'] (hdr :: lines)) := by
  have hfacts := intercalate_lines_facts (hdr :: lines) (by
    intro l hl
    rcases List.mem_cons.mp hl with rfl | h
    · exact hhdr
    · exact hlines l h)
  have hne := intercalate_ne_nil ['\n'] hdr lines hhdr.2
  obtain ⟨a, b, c, d⟩ := nlhead_facts _ hfacts.1 hfacts.2.1 hfacts.2.2 hne
  exact ⟨hasRunGe_mono 2 5 (by omega) _ a, b, c, d⟩

/-- The applications section is empty or a well-formed newline-headed
section. -/
theorem appsSection_facts (di : PageInfo)
    (happ : ∀ a ∈ di.applications, nlFree a.data) :
    appsSection di = [] ∨ SectionBundle (appsSection di) := by
  unfold appsSection
  split
  · exact Or.inl rfl
  · right
    rw [show ("\nApplications:".data : List Char)
        = '\n' :: "Applications:".data from rfl, intercalate_cons_head]
    refine nlhead_section_bundle _ _ ⟨by decide, by decide⟩ ?_
    intro l hl
    obtain ⟨a, ha, heq⟩ := List.mem_map.mp hl
    cases heq
    exact ⟨nlFree_append _ _ (by decide) (happ a ha),
      ne_nil_append_left _ _ (by decide)⟩

/-- The set-items section is empty or a well-formed newline-headed
section. -/
theorem setSection_facts (di : PageInfo)
    (hset : ∀ it ∈ di.items_in_set, nlFree it.data) :
    setSection di = [] ∨ SectionBundle (setSection di) := by
  unfold setSection
  split
  · exact Or.inl rfl
  · right
    rw [show ("\nThis set includes:".data : List Char)
        = '\n' :: "This set includes:".data from rfl, intercalate_cons_head]
    refine nlhead_section_bundle _ _ ⟨by decide, by decide⟩ ?_
    intro l hl
    obtain ⟨a, ha, heq⟩ := List.mem_map.mp hl
    cases heq
    exact ⟨nlFree_append _ _ (by decide) (hset a ha),
      ne_nil_append_left _ _ (by decide)⟩

/-- The Additional Information section is a well-formed newline-headed
section. -/
theorem additionalInfo_facts (pd : ProductData)
    (hcode : nlFree pd.code.data) :
    SectionBundle (additionalInfoSection pd) := by
  unfold additionalInfoSection
  rw [show ("\nAdditional Information:".data : List Char)
      = '\n' :: "Additional Information:".data from rfl, intercalate_cons_head]
  refine nlhead_section_bundle _ _ ⟨by decide, by decide⟩ ?_
  intro l hl
  simp only [List.mem_cons, List.not_mem_nil, or_false] at hl
  rcases hl with rfl | rfl | rfl | rfl
  · exact ⟨by decide, by decide⟩
  · exact ⟨nlFree_append _ _ (by decide) hcode,
      ne_nil_append_left _ _ (by decide)⟩
  · exact ⟨by decide, by decide⟩
  · exact ⟨by decide, by decide⟩

/-- The closing line is a newline followed by a newline-free non-empty
body. -/
theorem closing_facts (pd : ProductData) (hname : nlFree pd.name.data) :
    SectionBundle (closingLine pd) := by
  have hsplit : closingLine pd
      = '\n' :: ("With Wiha's commitment to excellence and innovation, the ".data
          ++ (pd.name.data
          ++ (" delivers the reliability and performance that professionals demand. ".data
          ++ "Elevate your work with tools engineered to meet the highest standards.".data))) := by
    unfold closingLine
    simp only [List.append_assoc]
    rfl
  rw [hsplit]
  have hbody : nlFree ("With Wiha's commitment to excellence and innovation, the ".data
      ++ (pd.name.data
      ++ (" delivers the reliability and performance that professionals demand. ".data
      ++ "Elevate your work with tools engineered to meet the highest standards.".data))) :=
    nlFree_append _ _ (by decide) (nlFree_append _ _ hname
      (nlFree_append _ _ (by decide) (by decide)))
  have hne : ("With Wiha's commitment to excellence and innovation, the ".data
      ++ (pd.name.data
      ++ (" delivers the reliability and performance that professionals demand. ".data
      ++ "Elevate your work with tools engineered to meet the highest standards.".data)))
      ≠ ([] : List Char) := ne_nil_append_left _ _ (by decide)
  obtain ⟨a, b, c, d⟩ := nlhead_facts _
    (nlFree_hasRunGe 2 _ (by omega) hbody) (nlFree_leadNl _ hbody)
    (nlFree_trailNl _ hbody) hne
  exact ⟨hasRunGe_mono 2 5 (by omega) _ a, b, c, d⟩

/-- C4 amended: for inputs whose fields contain no newline characters, the
composed description never contains four or more consecutive newlines (the
single substitution pass collapses the four-newline run arising when both
optional sections are empty to exactly three, and every shorter run to at
most two — so runs of exactly three can remain, see the counterexample). -/
theorem create_description_no_four_newlines (pd : ProductData) (di : PageInfo)
    (hcode : nlFree pd.code.data) (hname : nlFree pd.name.data)
    (hdesc : nlFree di.description.data)
    (hspec : ∀ kv ∈ di.specifications, nlFree kv.1.data ∧ nlFree kv.2.data)
    (happ : ∀ a ∈ di.applications, nlFree a.data)
    (hset : ∀ it ∈ di.items_in_set, nlFree it.data) :
    hasRunGe 4 (create_product_description pd di).data = false := by
  show hasRunGe 4 (pyReplace3 (List.intercalate ['\n'] (descSections pd di)))
    = false
  apply replace3_no4
  obtain ⟨htf, htn⟩ := product_title_facts pd hcode hname
  obtain ⟨hif, hin⟩ := introPara_facts pd di hcode hname hdesc
  have hFlines := featuresBlock_lines di hspec
  obtain ⟨hF2, hFl, hFt⟩ := intercalate_lines_facts _ hFlines
  have hFhead : ∃ rest, featuresBlock di = "Features:".data :: rest := by
    simp only [featuresBlock, featureLines]
    split
    · exact ⟨_, rfl⟩
    · exact ⟨_, rfl⟩
  obtain ⟨frest, hfrest⟩ := hFhead
  have hFne : List.intercalate ['\n'] (featuresBlock di) ≠ [] := by
    rw [hfrest]
    exact intercalate_ne_nil _ _ _ (by decide)
  have hApps := appsSection_facts di happ
  have hSets := setSection_facts di hset
  have hAdd := additionalInfo_facts pd hcode
  have hClose := closing_facts pd hname
  have X2 : hasRunGe 5 (List.intercalate ['\n']
        [([] : List Char), closingLine pd]) = false ∧
      leadNl (List.intercalate ['\n'] [([] : List Char), closingLine pd])
        = 2 := by
    rw [intercalate_expand, List.nil_append, intercalate_single]
    have h := chain_step_empty (closingLine pd) hClose.1 (by rw [hClose.2.1]; omega)
    exact ⟨h.1, by rw [h.2, hClose.2.1]⟩
  have X3 : hasRunGe 5 (List.intercalate ['\n']
        [additionalInfoSection pd, [], closingLine pd]) = false ∧
      leadNl (List.intercalate ['\n']
        [additionalInfoSection pd, [], closingLine pd]) = 1 := by
    rw [intercalate_expand]
    have h := chain_step (additionalInfoSection pd) _ hAdd.1 hAdd.2.2.1
      hAdd.2.2.2 X2.1 (by rw [X2.2]; omega)
    exact ⟨h.1, by rw [h.2, hAdd.2.1]⟩
  have X4 : hasRunGe 5 (List.intercalate ['\n']
        [setSection di, additionalInfoSection pd, [], closingLine pd])
        = false ∧
      leadNl (List.intercalate ['\n']
        [setSection di, additionalInfoSection pd, [], closingLine pd])
        ≤ 2 := by
    rw [intercalate_expand]
    have h := chain_step_opt (setSection di) _ 1 (by omega) hSets X3.1
      (by rw [X3.2])
    exact ⟨h.1, h.2⟩
  have X5 : hasRunGe 5 (List.intercalate ['\n']
        [appsSection di, setSection di, additionalInfoSection pd, [],
          closingLine pd]) = false ∧
      leadNl (List.intercalate ['\n']
        [appsSection di, setSection di, additionalInfoSection pd, [],
          closingLine pd]) ≤ 3 := by
    rw [intercalate_expand]
    have h := chain_step_opt (appsSection di) _ 2 (by omega) hApps X4.1 X4.2
    exact ⟨h.1, h.2⟩
  have X6 : hasRunGe 5 (List.intercalate ['\n']
        [List.intercalate ['\n'] (featuresBlock di), appsSection di,
          setSection di, additionalInfoSection pd, [], closingLine pd])
        = false ∧
      leadNl (List.intercalate ['\n']
        [List.intercalate ['\n'] (featuresBlock di), appsSection di,
          setSection di, additionalInfoSection pd, [], closingLine pd])
        = 0 := by
    rw [intercalate_expand]
    have h := chain_step (List.intercalate ['\n'] (featuresBlock di)) _
      (hasRunGe_mono 2 5 (by omega) _ hF2) hFt
      (allNl_false_of_head _ hFne hFl) X5.1 X5.2
    exact ⟨h.1, by rw [h.2, hFl]⟩
  have X7 : hasRunGe 5 (List.intercalate ['\n']
        [([] : List Char), List.intercalate ['\n'] (featuresBlock di),
          appsSection di, setSection di, additionalInfoSection pd, [],
          closingLine pd]) = false ∧
      leadNl (List.intercalate ['\n']
        [([] : List Char), List.intercalate ['\n'] (featuresBlock di),
          appsSection di, setSection di, additionalInfoSection pd, [],
          closingLine pd]) = 1 := by
    rw [intercalate_expand, List.nil_append]
    have h := chain_step_empty _ X6.1 (by rw [X6.2]; omega)
    exact ⟨h.1, by rw [h.2, X6.2]⟩
  have X8 : hasRunGe 5 (List.intercalate ['\n']
        [introPara pd di, [], List.intercalate ['\n'] (featuresBlock di),
          appsSection di, setSection di, additionalInfoSection pd, [],
          closingLine pd]) = false ∧
      leadNl (List.intercalate ['\n']
        [introPara pd di, [], List.intercalate ['\n'] (featuresBlock di),
          appsSection di, setSection di, additionalInfoSection pd, [],
          closingLine pd]) = 0 := by
    rw [intercalate_expand]
    have h := chain_step (introPara pd di) _
      (nlFree_hasRunGe 5 _ (by omega) hif) (nlFree_trailNl _ hif)
      (nlFree_allNl_false _ hin hif) X7.1 (by rw [X7.2]; omega)
    exact ⟨h.1, by rw [h.2, nlFree_leadNl _ hif]⟩
  have X9 : hasRunGe 5 (List.intercalate ['\n']
        [([] : List Char), introPara pd di, [],
          List.intercalate ['\n'] (featuresBlock di), appsSection di,
          setSection di, additionalInfoSection pd, [], closingLine pd])
        = false ∧
      leadNl (List.intercalate ['\n']
        [([] : List Char), introPara pd di, [],
          List.intercalate ['\n'] (featuresBlock di), appsSection di,
          setSection di, additionalInfoSection pd, [], closingLine pd])
        = 1 := by
    rw [intercalate_expand, List.nil_append]
    have h := chain_step_empty _ X8.1 (by rw [X8.2]; omega)
    exact ⟨h.1, by rw [h.2, X8.2]⟩
  unfold descSections
  rw [intercalate_expand]
  exact (chain_step (product_title pd) _
    (nlFree_hasRunGe 5 _ (by omega) htf) (nlFree_trailNl _ htf)
    (nlFree_allNl_false _ htn htf) X9.1 (by rw [X9.2]; omega)).1

/-- C4 counterexample: with an empty extraction result (no applications and
no set items), the composed description contains a run of exactly three
consecutive newlines — the join has a four-newline run between the Features
block and the Additional Information block, and the single substitution pass
shortens it only to three. -/
theorem create_description_three_newlines_counterexample :
    hasRunGe 3 (create_product_description
      { code := "1", name := "T", image_url := "", product_url := "" }
      emptyPageInfo).data = true ∧
    hasRunGe 4 (create_product_description
      { code := "1", name := "T", image_url := "", product_url := "" }
      emptyPageInfo).data = false := by
  constructor
  · decide
  · decide

theorem create_description_no_four_newlines_witness :
    hasRunGe 4 (create_product_description
      { code := "12345", name := "Slotted Screwdriver", image_url := "",
        product_url := "" }
      { description := "A tool.", specifications := [("Weight", "0.7 kg")],
        items_in_set := [], applications := [] }).data = false := by
  exact create_description_no_four_newlines _ _ (by decide) (by decide)
    (by decide) (by decide) (by decide) (by decide)
